import Mathlib

/-!
Verification development for the BRENDA ingestion pipeline
(`src/pipelines/brenda_ingestion.py`).

The Python source is shallowly embedded: pure helper functions become Lean
functions over `List Char` / `String`, Python `float` values are modelled as
exact rationals (the claims under study only compare values produced by the
same parse, so exact arithmetic is faithful), and Python exceptions are
modelled with `Except`.  Paths and the filesystem are modelled by an
existence oracle.
-/

namespace BrendaIngest

/-- Python's whitespace class (`\s` and `str.strip`), ASCII fragment.
The BRENDA inputs are ASCII-markup text; the unicode extras of Python's
whitespace class are not modelled. -/
def pySpace (c : Char) : Bool :=
  c = ' ' || c = '\t' || c = '\n' || c = '\r' || c = '\x0b' || c = '\x0c'

/-- `str.strip()` on a character list. -/
def pyStripList (l : List Char) : List Char :=
  ((l.dropWhile pySpace).reverse.dropWhile pySpace).reverse

/-- `str.strip()`. -/
def pyStrip (s : String) : String :=
  String.mk (pyStripList s.toList)

/-- Worker for `re.sub(r"\s+", " ", ·)`: the flag records whether the
previous character belonged to a whitespace run already collapsed. -/
def collapseAux : Bool → List Char → List Char
  | _, [] => []
  | prevWs, c :: cs =>
    if pySpace c then
      if prevWs then collapseAux true cs
      else ' ' :: collapseAux true cs
    else c :: collapseAux false cs

/-- `re.sub(r"\s+", " ", ·)`: every maximal whitespace run becomes one space. -/
def collapseWs (l : List Char) : List Char :=
  collapseAux false l

/-- A single match of `NUMERIC_RE = [-+]?\d*\.?\d+(?:[eE][-+]?\d+)?`,
kept in structured form so that both the matched text and its numeric
value can be recovered. -/
structure NumTok where
  sign : Option Char
  intPart : List Char
  fracPart : Option (List Char)
  expPart : Option (Char × Option Char × List Char)
deriving DecidableEq, Repr

/-- The text of an optional fractional part (dot plus digits). -/
def fracRender : Option (List Char) → List Char
  | none => []
  | some d => '.' :: d

/-- The text of an optional exponent part (letter, optional sign, digits). -/
def expRender : Option (Char × Option Char × List Char) → List Char
  | none => []
  | some (e, s, d) => e :: (s.toList ++ d)

/-- The exact text matched by the token. -/
def NumTok.render (t : NumTok) : List Char :=
  t.sign.toList ++ t.intPart ++ fracRender t.fracPart ++ expRender t.expPart

/-- Decimal digits to a natural number. -/
def digitsToNat (l : List Char) : Nat :=
  l.foldl (fun n c => 10 * n + (c.toNat - '0'.toNat)) 0

/-- The numeric value of a matched token, as an exact rational
(the value Python's `float` would denote, before rounding). -/
def NumTok.val (t : NumTok) : ℚ :=
  let mag : ℚ := (digitsToNat t.intPart : ℚ) +
    (match t.fracPart with
     | none => 0
     | some d => (digitsToNat d : ℚ) / (10 : ℚ) ^ d.length)
  let signed : ℚ := if t.sign = some '-' then -mag else mag
  match t.expPart with
  | none => signed
  | some (_, s, d) =>
    if s = some '-' then signed / (10 : ℚ) ^ digitsToNat d
    else signed * (10 : ℚ) ^ digitsToNat d

/-- Match `\d*\.?\d+` at the head of `l`, with the regex engine's greedy
backtracking semantics: a fractional part is taken when a dot with at least
one following digit is present; otherwise the digit run itself must be
non-empty (the final `\d+` backtracks into the `\d*` run). -/
def matchMantissa (l : List Char) :
    Option ((List Char × Option (List Char)) × List Char) :=
  let d1 := l.takeWhile Char.isDigit
  let r1 := l.dropWhile Char.isDigit
  match r1 with
  | '.' :: r2 =>
    let d2 := r2.takeWhile Char.isDigit
    if d2 = [] then
      if d1 = [] then none else some ((d1, none), r1)
    else some ((d1, some d2), r2.dropWhile Char.isDigit)
  | _ => if d1 = [] then none else some ((d1, none), r1)

/-- Match the optional exponent `(?:[eE][-+]?\d+)?` at the head of `l`;
if the exponent cannot complete, the group backtracks to the empty match. -/
def matchExp (l : List Char) :
    Option (Char × Option Char × List Char) × List Char :=
  match l with
  | e :: rest =>
    if e = 'e' ∨ e = 'E' then
      match rest with
      | s :: rest2 =>
        if s = '+' ∨ s = '-' then
          let d := rest2.takeWhile Char.isDigit
          if d = [] then (none, l)
          else (some (e, some s, d), rest2.dropWhile Char.isDigit)
        else
          let d := rest.takeWhile Char.isDigit
          if d = [] then (none, l)
          else (some (e, none, d), rest.dropWhile Char.isDigit)
      | [] => (none, l)
    else (none, l)
  | [] => (none, l)

/-- Attempt a `NUMERIC_RE` match anchored at the head of `l`.  An optional
sign may be consumed first; if the mantissa then fails, the whole match
fails (a sign character can begin no other match of the pattern). -/
def matchNumAt (l : List Char) : Option (NumTok × List Char) :=
  match l with
  | [] => none
  | c :: cs =>
    if c = '+' ∨ c = '-' then
      match matchMantissa cs with
      | none => none
      | some ((d1, f), r) =>
        let (ex, r2) := matchExp r
        some (⟨some c, d1, f, ex⟩, r2)
    else
      match matchMantissa l with
      | none => none
      | some ((d1, f), r) =>
        let (ex, r2) := matchExp r
        some (⟨none, d1, f, ex⟩, r2)

/-- `NUMERIC_RE.findall`, fuelled scan: at each position try an anchored
match; on success continue after the match, otherwise advance one character. -/
def findNumsAux : Nat → List Char → List NumTok
  | 0, _ => []
  | _ + 1, [] => []
  | n + 1, c :: cs =>
    match matchNumAt (c :: cs) with
    | some (t, r) => t :: findNumsAux n r
    | none => findNumsAux n cs

/-- `NUMERIC_RE.findall` over a character list. -/
def findNums (l : List Char) : List NumTok :=
  findNumsAux l.length l

/-- `NUMERIC_RE.sub("", ·)`, fuelled scan mirroring `findNumsAux`:
matched spans are dropped, unmatched characters kept. -/
def numSubAux : Nat → List Char → List Char
  | 0, l => l
  | _ + 1, [] => []
  | n + 1, c :: cs =>
    match matchNumAt (c :: cs) with
    | some (_, r) => numSubAux n r
    | none => c :: numSubAux n cs

/-- `NUMERIC_RE.sub("", ·)`. -/
def numSub (l : List Char) : List Char :=
  numSubAux l.length l

/-- Model of Python's `float(s)` restricted to strings shaped like
`NUMERIC_RE` tokens (the only strings the pipeline ever passes to it):
the whole string must be one numeric token, whose exact value is returned.
`none` models a `ValueError`. -/
def pyFloat (s : String) : Option ℚ :=
  match matchNumAt s.toList with
  | some (t, []) => some t.val
  | _ => none

/-- Python exception kinds raised by the embedded fragments. -/
inductive PyErr
  | valueError
  | typeError
  | keyError
  | indexError
  | attributeError
  | fileNotFound (path : String)
deriving DecidableEq, Repr

deriving instance DecidableEq for Except

/-- `float(s)` with its `ValueError` made explicit. -/
def pyFloatE (s : String) : Except PyErr ℚ :=
  match pyFloat s with
  | some q => Except.ok q
  | none => Except.error PyErr.valueError

/-- Does `l` match `\s*\x7b[^\x7d]*\x7d` anchored at both ends?  If so,
return the brace-delimited content (which may itself contain opening
braces, but no closing one). -/
def ctxSuffix? (l : List Char) : Option (List Char) :=
  match l.dropWhile pySpace with
  | '\x7b' :: rest =>
    if rest.dropWhile (fun c => !(c = '\x7d')) = ['\x7d'] then
      some (rest.takeWhile (fun c => !(c = '\x7d')))
    else none
  | _ => none

/-- `re.match(r"^(?P<body>.*?)(?:\s*\x7b(?P<context>[^\x7d]*)\x7d)?$", ·)`
on a string with no trailing newline.  The lazy `.*?` takes the shortest
body whose remainder is a whole brace-delimited context; `.` cannot cross
a newline, so the search stops (match failure, `none`) at an interior
newline; at the end of input the optional group is simply absent. -/
def matchCtx : List Char → Option (List Char × Option (List Char))
  | [] => some ([], none)
  | c :: cs =>
    match ctxSuffix? (c :: cs) with
    | some ctx => some ([], some ctx)
    | none =>
      if c = '\n' then none
      else
        match matchCtx cs with
        | some (b, ctx) => some (c :: b, ctx)
        | none => none

/-- The result tuple of `_parse_value`. -/
structure ParsedValue where
  low : Option ℚ
  high : Option ℚ
  unit : Option String
  context : Option String
deriving DecidableEq, Repr

/-- The first lines of `_parse_value`: strip the value, split off an
optional trailing brace-delimited context, and strip the body again. -/
def parseBody (s : String) : List Char × Option String :=
  let v := pyStripList s.toList
  match matchCtx v with
  | some (b, ctx) => (pyStripList b, ctx.map String.mk)
  | none => (v, none)

/-- The `try: low = float(numbers[0]); high = float(numbers[-1])` block:
both floats are parsed, an exception aborting the pair. -/
def lowHighE (numbers : List String) : Except PyErr (Option ℚ × Option ℚ) :=
  match numbers.head?, numbers.getLast? with
  | some n, some m =>
    match pyFloatE n with
    | Except.error e => Except.error e
    | Except.ok a =>
      match pyFloatE m with
      | Except.error e => Except.error e
      | Except.ok b => Except.ok (some a, some b)
  | _, _ => Except.ok (none, none)

/-- The unit extraction of `_parse_value`: numeric spans removed, hyphens
to spaces, whitespace collapsed, stripped; empty becomes `none`. -/
def unitOf (body : List Char) (numbers : List String) : Option String :=
  if numbers = [] then none
  else
    let uc := numSub body
    let uc := uc.map fun c => if c = '-' then ' ' else c
    let uc := pyStripList (collapseWs uc)
    if uc = [] then none else some (String.mk uc)

/-- The matched number substrings of the (stripped, context-free) body. -/
def parseNumbers (s : String) : List String :=
  (findNums (parseBody s).1).map fun t => String.mk t.render

/-- The `try`/`except ValueError` block of `_parse_value` resolved to its
result: the bound pair, or both null after a conversion failure. -/
def lowHighOf (numbers : List String) : Option ℚ × Option ℚ :=
  match lowHighE numbers with
  | Except.ok p => p
  | Except.error _ => (none, none)

/-- `_parse_value`, with the `except ValueError` branch already resolved
to null numeric fields. -/
def parseValue (s : String) : ParsedValue :=
  ⟨(lowHighOf (parseNumbers s)).1, (lowHighOf (parseNumbers s)).2,
   unitOf (parseBody s).1 (parseNumbers s), (parseBody s).2⟩

/-- `_parse_value` with exception propagation made explicit: the numeric
conversion may raise, `except ValueError` catches exactly that error and
degrades to null numeric fields, and any other exception would propagate. -/
def parseValueE (s : String) : Except PyErr ParsedValue :=
  match lowHighE (parseNumbers s) with
  | Except.ok lh =>
    Except.ok ⟨lh.1, lh.2, unitOf (parseBody s).1 (parseNumbers s), (parseBody s).2⟩
  | Except.error PyErr.valueError =>
    Except.ok ⟨none, none, unitOf (parseBody s).1 (parseNumbers s), (parseBody s).2⟩
  | Except.error e => Except.error e

/-- Anchored match of a bracket-token pattern `op [^bad]+ cl` at the head
of `l` (e.g. `#([^#]+)#`): returns the group-1 content and the remainder.
`bad` is the excluded character class of the content. -/
def tokMatchAt (op cl : Char) (bad : Char → Bool) :
    List Char → Option (List Char × List Char)
  | [] => none
  | c :: cs =>
    if c = op then
      let t := cs.takeWhile fun x => !(bad x)
      match cs.dropWhile fun x => !(bad x) with
      | d :: rest => if d = cl ∧ t ≠ [] then some (t, rest) else none
      | [] => none
    else none

/-- `findall` scan for a bracket-token pattern. -/
def findTokAux (op cl : Char) (bad : Char → Bool) : Nat → List Char → List (List Char)
  | 0, _ => []
  | _ + 1, [] => []
  | n + 1, c :: cs =>
    match tokMatchAt op cl bad (c :: cs) with
    | some (t, r) => t :: findTokAux op cl bad n r
    | none => findTokAux op cl bad n cs

/-- `findall` for a bracket-token pattern over a whole list. -/
def findTok (op cl : Char) (bad : Char → Bool) (l : List Char) : List (List Char) :=
  findTokAux op cl bad l.length l

/-- `sub` scan for a bracket-token pattern: each match is replaced by its
content (`keep = true`) or removed (`keep = false`). -/
def subTokAux (op cl : Char) (bad : Char → Bool) (keep : Bool) : Nat → List Char → List Char
  | 0, l => l
  | _ + 1, [] => []
  | n + 1, c :: cs =>
    match tokMatchAt op cl bad (c :: cs) with
    | some (t, r) => (if keep then t else []) ++ subTokAux op cl bad keep n r
    | none => c :: subTokAux op cl bad keep n cs

/-- `sub` for a bracket-token pattern over a whole list. -/
def subTok (op cl : Char) (bad : Char → Bool) (keep : Bool) (l : List Char) : List Char :=
  subTokAux op cl bad keep l.length l

/-- Content exclusion class of `HASH_TOKEN_RE = #([^#]+)#`. -/
def hashBad (c : Char) : Bool := c = '#'

/-- Content exclusion class of `ANGLE_TOKEN_RE = <([^<>]+)>`. -/
def angleBad (c : Char) : Bool := c = '<' || c = '>'

/-- Content exclusion class of `BRACE_TOKEN_RE` (brace-delimited tokens). -/
def braceBad (c : Char) : Bool := c = '\x7b' || c = '\x7d'

/-- Content exclusion class of `PAREN_TOKEN_RE = \(([^()]+)\)`. -/
def parenBad (c : Char) : Bool := c = '(' || c = ')'

/-- `HASH_TOKEN_RE.findall`. -/
def hashFind (l : List Char) : List (List Char) := findTok '#' '#' hashBad l

/-- `ANGLE_TOKEN_RE.findall`. -/
def angleFind (l : List Char) : List (List Char) := findTok '<' '>' angleBad l

/-- `BRACE_TOKEN_RE.findall`. -/
def braceFind (l : List Char) : List (List Char) := findTok '\x7b' '\x7d' braceBad l

/-- `PAREN_TOKEN_RE.findall`. -/
def parenFind (l : List Char) : List (List Char) := findTok '(' ')' parenBad l

/-- `_strip_markup`: hash and brace and paren tokens keep their content,
angle tokens are removed entirely, then whitespace is collapsed and the
result stripped. -/
def stripMarkup (s : String) : String :=
  let r := subTok '#' '#' hashBad true s.toList
  let r := subTok '<' '>' angleBad false r
  let r := subTok '\x7b' '\x7d' braceBad true r
  let r := subTok '(' ')' parenBad true r
  String.mk (pyStripList (collapseWs r))

/-- `_join` on a list of strings (the shape used for token lists):
empty list gives `None`, otherwise a `";"`-join. -/
def pyJoinStrs (l : List String) : Option String :=
  if l = [] then none else some (String.intercalate ";" l)

/-- The markup-tokenizer pass of `_flush_text_record` (lines 409-412):
protein tokens, reference tokens, qualifiers (brace matches first, then
parenthesis matches) and the cleaned string. -/
def tokenizeValue (value : String) :
    List String × List String × List String × String :=
  ((hashFind value.toList).map String.mk,
   (angleFind value.toList).map String.mk,
   ((braceFind value.toList) ++ (parenFind value.toList)).map String.mk,
   stripMarkup value)

/-- `TEXT_FIELD_LABELS`. -/
def textFieldLabels : List (String × String) :=
  [("AC", "activating compound"), ("AP", "application"), ("CF", "cofactor"),
   ("CL", "cloned"), ("CR", "crystallization"), ("EN", "engineering"),
   ("EXP", "expression"), ("GI", "general information"),
   ("GS", "general stability"), ("IC50", "IC50 value"), ("ID", "EC class"),
   ("IN", "inhibitor"), ("KKM", "kcat/KM value"), ("KI", "Ki value"),
   ("KM", "Km value"), ("LO", "localization"), ("ME", "metals/ions"),
   ("MW", "molecular weight"), ("NSP", "natural substrates/products"),
   ("OS", "oxygen stability"), ("OSS", "organic solvent stability"),
   ("PHO", "pH optimum"), ("PHR", "pH range"), ("PHS", "pH stability"),
   ("PI", "isoelectric point"), ("PM", "post translational modification"),
   ("PR", "protein"), ("PU", "purification"), ("RE", "reaction"),
   ("RF", "reference"), ("REN", "renatured"), ("RN", "recommended name"),
   ("RT", "reaction type"), ("SA", "specific activity"), ("SN", "synonym"),
   ("SP", "substrate/product"), ("SS", "storage stability"),
   ("ST", "source tissue"), ("SU", "subunits"), ("SY", "systematic name"),
   ("TN", "turnover number"), ("TO", "temperature optimum"),
   ("TR", "temperature range"), ("TS", "temperature stability"),
   ("BR", "BRENDA release")]

/-- `TEXT_FIELD_LABELS.get(code)`. -/
def textFieldLabel (code : String) : Option String :=
  textFieldLabels.lookup code

/-- A `text_facts` row as produced by `_flush_text_record`. -/
structure TextRecord where
  ec : String
  fieldCode : String
  fieldName : Option String
  valueRaw : String
  valueText : String
  proteinTokens : Option String
  referenceTokens : Option String
  qualifiers : Option String
deriving DecidableEq, Repr

/-- `_flush_text_record`: emits one row when an EC context and a field
code are active and the joined buffer is non-empty. -/
def flushTextRecord (ec code : Option String) (buf : List String) :
    List TextRecord :=
  match ec, code with
  | some e, some c =>
    if buf = [] then []
    else
      let value := pyStrip (String.intercalate " "
        ((buf.filter fun p => p ≠ "").map pyStrip))
      if value = "" then []
      else
        let (prot, refs, quals, cleaned) := tokenizeValue value
        [⟨e, c, textFieldLabel c, value, cleaned,
          pyJoinStrs prot, pyJoinStrs refs, pyJoinStrs quals⟩]
  | _, _ => []

/-- `s.startswith(p)`. -/
def pyStartsWith (s p : String) : Bool :=
  p.toList.isPrefixOf s.toList

/-- Split into lines at `\n` (each line loses its terminator, as
`rstrip("\n")` does on lines read from a file; a trailing newline yields
a final empty line, which the scanner skips). -/
def splitLinesAux : List Char → List Char → List String
  | acc, [] => [String.mk acc.reverse]
  | acc, c :: cs =>
    if c = '\n' then String.mk acc.reverse :: splitLinesAux [] cs
    else splitLinesAux (c :: acc) cs

/-- Split a file's content into lines. -/
def splitLines (s : String) : List String :=
  splitLinesAux [] s.toList

/-- Split a character list at the first tab, like `split("\t", 1)`:
the second component is `none` when no tab occurs. -/
def splitFirstTab (l : List Char) : List Char × Option (List Char) :=
  match l.dropWhile fun c => !(c = '\t') with
  | _ :: rest => (l.takeWhile fun c => !(c = '\t'), some rest)
  | [] => (l, none)

/-- The scanner state of `_iter_text_records`: active EC context, active
field code, accumulated continuation buffer. -/
structure ScanState where
  ec : Option String
  code : Option String
  buf : List String
deriving DecidableEq, Repr

/-- One line of `_iter_text_records`, in the source's branch order:
blank, record terminator, record start, no-EC guard, comment,
continuation, tagged field, section heading. -/
def scanStep (st : ScanState) (line : String) : ScanState × List TextRecord :=
  if line = "" then (st, [])
  else if pyStartsWith line "///" then
    (⟨none, none, []⟩, flushTextRecord st.ec st.code st.buf)
  else if pyStartsWith line "ID\t" then
    (⟨some (pyStrip (String.mk ((splitFirstTab line.toList).2.getD []))),
      none, []⟩,
     flushTextRecord st.ec st.code st.buf)
  else if st.ec = none then (st, [])
  else if pyStartsWith line "*" then (st, [])
  else if pyStartsWith line "\t" ∨ pyStartsWith line " " then
    (if st.code ≠ none then ⟨st.ec, st.code, st.buf ++ [pyStrip line]⟩ else st, [])
  else if line.toList.contains '\t' then
    let (codeL, valL) := splitFirstTab line.toList
    let code := pyStrip (String.mk codeL)
    let value := pyStrip (String.mk (valL.getD []))
    if code = "" then (st, [])
    else
      (⟨st.ec, some code, if value = "" then [] else [value]⟩,
       if st.code ≠ none then flushTextRecord st.ec st.code st.buf else [])
  else
    (⟨st.ec, none, []⟩, flushTextRecord st.ec st.code st.buf)

/-- Run the scanner over a list of lines, accumulating emitted rows. -/
def scanLines : ScanState → List String → ScanState × List TextRecord
  | st, [] => (st, [])
  | st, l :: ls =>
    let (st', rs) := scanStep st l
    let (st'', rs') := scanLines st' ls
    (st'', rs ++ rs')

/-- `_iter_text_records` on the decoded file content: the file is split
into newline-terminated lines (each line's trailing newline stripped),
scanned, and any still-open field flushed at end of input. -/
def iterTextRecords (input : String) : List TextRecord :=
  let (st, rs) := scanLines ⟨none, none, []⟩ (splitLines input)
  rs ++ flushTextRecord st.ec st.code st.buf

/-- Decoded JSON values as seen by the pipeline (`ijson` yields strings,
numbers, lists, objects and null; numeric values are modelled as exact
rationals). -/
inductive PyVal where
  | str (s : String)
  | int (n : Int)
  | float (q : ℚ)
  | list (xs : List PyVal)
  | dict (kvs : List (String × PyVal))
  | none

/-- Python truthiness of the modelled values. -/
def PyVal.truthy : PyVal → Bool
  | .str s => s != ""
  | .int n => n != 0
  | .float q => q != 0
  | .list xs => !xs.isEmpty
  | .dict kvs => !kvs.isEmpty
  | .none => false

/-- `v is not None` (an identity test, not an equality). -/
def PyVal.isNotNone : PyVal → Bool
  | .none => false
  | _ => true

/-- A decoded JSON object (a Python dict), as an association list in
insertion order with unique keys. -/
abbrev Entry := List (String × PyVal)

/-- `d.get(k)`: a missing key and an explicit null both surface as `None`. -/
def entryGet (e : Entry) (k : String) : PyVal :=
  match e.lookup k with
  | some v => v
  | Option.none => PyVal.none

/-- `x or d`. -/
def pyOr (x d : PyVal) : PyVal :=
  if x.truthy then x else d

/-- Decimal rendering of a modelled number.  The exact digit string Python
would print is representation-dependent and no claim depends on it; this
rendering is a stand-in. -/
def pyNumStr (q : ℚ) : String :=
  if q.den = 1 then toString q.num ++ ".0"
  else toString q.num ++ "/" ++ toString q.den

mutual

/-- `json.dumps` (rendering model: no escaping or separator tuning; no
claim depends on the exact characters produced). -/
def jsonDumps : PyVal → String
  | .str s => "\"" ++ s ++ "\""
  | .int n => toString n
  | .float q => pyNumStr q
  | .none => "null"
  | .list xs => "[" ++ String.intercalate ", " (jsonDumpsList xs) ++ "]"
  | .dict kvs => "\x7b" ++ String.intercalate ", " (jsonDumpsKVs kvs) ++ "\x7d"

/-- Renderings of the elements of a JSON array. -/
def jsonDumpsList : List PyVal → List String
  | [] => []
  | x :: xs => jsonDumps x :: jsonDumpsList xs

/-- Renderings of the members of a JSON object. -/
def jsonDumpsKVs : List (String × PyVal) → List String
  | [] => []
  | (k, v) :: kvs => ("\"" ++ k ++ "\": " ++ jsonDumps v) :: jsonDumpsKVs kvs

end

/-- `str(v)` on the modelled values (container rendering modelled by the
JSON rendering; no claim depends on it). -/
def pyStr (v : PyVal) : String :=
  match v with
  | .str s => s
  | .int n => toString n
  | .float q => pyNumStr q
  | .none => "None"
  | v => jsonDumps v

/-- `len(v)`: defined for strings, lists and dicts, a `TypeError`
otherwise. -/
def pyLen : PyVal → Except PyErr Nat
  | .str s => Except.ok s.length
  | .list xs => Except.ok xs.length
  | .dict kvs => Except.ok kvs.length
  | _ => Except.error PyErr.typeError

/-- `_join` on a decoded value: falsy gives `None`, a string passes
through, an iterable joins the `str` of its non-null elements with `";"`
(iterating a dict yields its keys), anything else is `str(value)`. -/
def pyJoin (v : PyVal) : Option String :=
  if !v.truthy then none
  else match v with
  | .str s => some s
  | .list xs =>
    some (String.intercalate ";" ((xs.filter PyVal.isNotNone).map pyStr))
  | .dict kvs => some (String.intercalate ";" (kvs.map fun kv => kv.1))
  | v => some (pyStr v)

/-- `v[0]`: head of a list, first character of a string, `KeyError` on a
dict (string keys only), `TypeError` otherwise. -/
def pyIndex0 : PyVal → Except PyErr PyVal
  | .list (x :: _) => Except.ok x
  | .list [] => Except.error PyErr.indexError
  | .str s =>
    match s.toList with
    | c :: _ => Except.ok (.str (String.mk [c]))
    | [] => Except.error PyErr.indexError
  | .dict _ => Except.error PyErr.keyError
  | _ => Except.error PyErr.typeError

/-- An `enzymes` row as built by `_build_enzyme_row`. -/
structure EnzymeRow where
  ec : String
  enzymeId : PyVal
  recommendedName : PyVal
  systematicName : PyVal
  reactionSummary : PyVal
  proteinCount : Nat
  synonymCount : Nat
  reactionCount : Nat
  kmCount : Nat
  turnoverCount : Nat
  inhibitorCount : Nat

/-- `_build_enzyme_row`. -/
def buildEnzymeRow (ec : String) (e : Entry) : Except PyErr EnzymeRow := do
  let proteins := pyOr (entryGet e "protein") (.dict [])
  let synonyms := pyOr (entryGet e "synonyms") (.list [])
  let reactions := pyOr (entryGet e "reaction") (.list [])
  let reactionSummary ←
    if reactions.truthy then do
      let first ← pyIndex0 reactions
      match first with
      | .dict d => pure (entryGet d "value")
      | .str s => pure (PyVal.str s)
      | _ => pure PyVal.none
    else pure PyVal.none
  let pc ← pyLen proteins
  let sc ← pyLen synonyms
  let rc ← pyLen reactions
  let kc ← pyLen (pyOr (entryGet e "km_value") (.list []))
  let tc ← pyLen (pyOr (entryGet e "turnover_number") (.list []))
  let ic ← pyLen (pyOr (entryGet e "inhibitor") (.list []))
  pure ⟨ec, entryGet e "id", entryGet e "recommended_name",
    entryGet e "systematic_name", reactionSummary, pc, sc, rc, kc, tc, ic⟩

/-- An `enzyme_facts` row as built by `_build_fact_row`. -/
structure FactRow where
  ec : String
  category : String
  value : PyVal
  valueLow : Option ℚ
  valueHigh : Option ℚ
  unit : Option String
  context : Option String
  comment : PyVal
  proteins : Option String
  referenceIds : Option String
  rawJson : String

/-- The context fallback priority list of `_build_fact_row`. -/
def ctxFallbackKeys : List String := ["organism", "substrate", "ligand", "tissue"]

/-- `_build_fact_row`: parse the value when it is a string, serialize the
payload, join the token lists, and fall back to the first truthy
organism/substrate/ligand/tissue field when no inline context was found. -/
def buildFactRow (ec category : String) (payload : Entry) : FactRow :=
  let value := entryGet payload "value"
  let comment := entryGet payload "comment"
  let parsed : ParsedValue :=
    match value with
    | .str s => parseValue s
    | _ => ⟨none, none, none, none⟩
  let rawJson := jsonDumps (.dict payload)
  let proteins := pyJoin (entryGet payload "proteins")
  let references := pyJoin (entryGet payload "references")
  let context :=
    match parsed.context with
    | some c => some c
    | Option.none =>
      match ctxFallbackKeys.find? fun k => (entryGet payload k).truthy with
      | some k => some (pyStr (entryGet payload k))
      | Option.none => none
  ⟨ec, category, value, parsed.low, parsed.high, parsed.unit, context,
   comment, proteins, references, rawJson⟩

/-- `BASE_FIELDS`. -/
def baseFields : List String := ["id", "recommended_name", "systematic_name"]

/-- `SPECIAL_KEYS`. -/
def specialKeys : List String := ["protein"]

/-- The generic category branch of `ingest` for one `(key, items)` pair:
base/special keys and falsy payloads contribute nothing; a scalar becomes
one `{value: str(items)}` payload; a dict passes through; a list yields
one payload per item with the same per-item classification (for JSON
values a truthy non-scalar non-dict payload is always a list, so the
non-iterable fallback of the source is unreachable here). -/
def factRowsOfItem (ec key : String) (items : PyVal) : List FactRow :=
  if baseFields.contains key ∨ specialKeys.contains key then []
  else if !items.truthy then []
  else match items with
  | .str _ | .int _ | .float _ => [buildFactRow ec key [("value", .str (pyStr items))]]
  | .dict kvs => [buildFactRow ec key kvs]
  | .list xs =>
    xs.map fun item =>
      match item with
      | .str _ | .int _ | .float _ => buildFactRow ec key [("value", .str (pyStr item))]
      | .dict kvs => buildFactRow ec key kvs
      | _ => buildFactRow ec key [("value", .str (jsonDumps item))]
  | .none => []

/-- All fact rows the JSON pass emits for one entry, in iteration order. -/
def factRowsOf (ec : String) (e : Entry) : List FactRow :=
  e.flatMap fun kv => factRowsOfItem ec kv.1 kv.2

/-- A `proteins` row. -/
structure ProteinRow where
  ec : String
  proteinId : String
  organism : PyVal
  comment : PyVal
  referenceIds : Option String
  rawJson : String

/-- The protein loop of `ingest`: iterates the `protein` map; a non-dict
protein container or detail raises `AttributeError` (no `.items` /
`.get`). -/
def proteinRowsOf (ec : String) (e : Entry) : Except PyErr (List ProteinRow) :=
  match pyOr (entryGet e "protein") (.dict []) with
  | .dict kvs =>
    kvs.mapM fun kv =>
      match kv.2 with
      | .dict d =>
        Except.ok ⟨ec, kv.1, entryGet d "organism", entryGet d "comment",
          pyJoin (entryGet d "references"), jsonDumps kv.2⟩
      | _ => Except.error PyErr.attributeError
  | _ => Except.error PyErr.attributeError

/-- Everything `ingest` produces for one JSON entry, in emission order:
the enzyme row first, then the protein rows, then the fact rows. -/
def processEntry (ec : String) (e : Entry) :
    Except PyErr (EnzymeRow × List ProteinRow × List FactRow) := do
  let enz ← buildEnzymeRow ec e
  let prots ← proteinRowsOf ec e
  pure (enz, prots, factRowsOf ec e)

/-- `BATCH_SIZE`. -/
def batchSize : Nat := 500

/-- One bulk insert into the store (an `executemany` call issued by
`_flush`): the rows of one batch, in buffer order. -/
inductive WriteEvent where
  | enzymes (rows : List EnzymeRow)
  | proteins (rows : List ProteinRow)
  | facts (rows : List FactRow)
  | textFacts (rows : List TextRecord)

/-- The table a write event targets. -/
inductive TableKind where
  | enzymes
  | proteins
  | facts
  | textFacts
deriving DecidableEq, Repr

/-- The table of a write event. -/
def WriteEvent.kind : WriteEvent → TableKind
  | .enzymes _ => TableKind.enzymes
  | .proteins _ => TableKind.proteins
  | .facts _ => TableKind.facts
  | .textFacts _ => TableKind.textFacts

/-- The in-memory buffers of `ingest` plus the ordered list of bulk
inserts performed so far. -/
structure IngestState where
  enzymeBuf : List EnzymeRow
  proteinBuf : List ProteinRow
  factBuf : List FactRow
  textBuf : List TextRecord
  events : List WriteEvent

/-- The empty ingest state. -/
def initState : IngestState := ⟨[], [], [], [], []⟩

/-- `_flush(conn, enzyme_rows, _insert_enzyme)`: a no-op on an empty
buffer, otherwise one bulk insert of the whole buffer, which is cleared. -/
def flushEnzymes (st : IngestState) : IngestState :=
  if st.enzymeBuf.isEmpty then st
  else ⟨[], st.proteinBuf, st.factBuf, st.textBuf,
    st.events ++ [WriteEvent.enzymes st.enzymeBuf]⟩

/-- `_flush(conn, protein_rows, _insert_protein)`. -/
def flushProteins (st : IngestState) : IngestState :=
  if st.proteinBuf.isEmpty then st
  else ⟨st.enzymeBuf, [], st.factBuf, st.textBuf,
    st.events ++ [WriteEvent.proteins st.proteinBuf]⟩

/-- `_flush(conn, fact_rows, _insert_fact)`. -/
def flushFacts (st : IngestState) : IngestState :=
  if st.factBuf.isEmpty then st
  else ⟨st.enzymeBuf, st.proteinBuf, [], st.textBuf,
    st.events ++ [WriteEvent.facts st.factBuf]⟩

/-- `_flush(conn, text_rows, _insert_text_fact)`. -/
def flushText (st : IngestState) : IngestState :=
  if st.textBuf.isEmpty then st
  else ⟨st.enzymeBuf, st.proteinBuf, st.factBuf, [],
    st.events ++ [WriteEvent.textFacts st.textBuf]⟩

/-- The loop body of the JSON pass for one successfully processed entry:
append the enzyme row, the protein rows and the fact rows to their
buffers, then flush each buffer that reached the batch size, in the
source's order (enzymes, proteins, facts). -/
def stepEntryOk (st : IngestState) (enz : EnzymeRow)
    (prots : List ProteinRow) (facts : List FactRow) : IngestState :=
  let st : IngestState := ⟨st.enzymeBuf ++ [enz], st.proteinBuf ++ prots,
    st.factBuf ++ facts, st.textBuf, st.events⟩
  let st := if batchSize ≤ st.enzymeBuf.length then flushEnzymes st else st
  let st := if batchSize ≤ st.proteinBuf.length then flushProteins st else st
  let st := if batchSize ≤ st.factBuf.length then flushFacts st else st
  st

/-- The JSON-pass loop over the streamed entries.  An exception raised
while processing an entry aborts the loop; the writes already performed
stand. -/
def runEntries : IngestState → List (String × Entry) → IngestState × Option PyErr
  | st, [] => (st, none)
  | st, (ec, e) :: rest =>
    match processEntry ec e with
    | Except.error err => (st, some err)
    | Except.ok (enz, prots, facts) => runEntries (stepEntryOk st enz prots facts) rest

/-- The whole JSON pass: the entry loop followed by the three final
flushes (enzymes, proteins, facts), which are skipped if the loop raised. -/
def runJson (entries : List (String × Entry)) : IngestState × Option PyErr :=
  match runEntries initState entries with
  | (st, some err) => (st, some err)
  | (st, none) => (flushFacts (flushProteins (flushEnzymes st)), none)

/-- The text-file pass: each scanned record is buffered, the buffer is
flushed at the batch size and once more at end of stream. -/
def runTextPass (st : IngestState) (input : String) : IngestState :=
  let st := (iterTextRecords input).foldl
    (fun st r =>
      let st : IngestState := ⟨st.enzymeBuf, st.proteinBuf, st.factBuf,
        st.textBuf ++ [r], st.events⟩
      if batchSize ≤ st.textBuf.length then flushText st else st)
    st
  flushText st

/-- An observable operation on the destination store. -/
inductive StoreOp where
  | removeDb
  | initSchema
  | write (e : WriteEvent)
  | createIndexes

/-- `ingest` after its argument checks have passed: rebuild the store
(deleting a pre-existing database file), create the schema, run the JSON
pass, optionally run the text pass, then build the indexes.  A raised
exception aborts the run after the writes already performed. -/
def ingestBody (fsExists : String → Bool) (dbPath : String)
    (entries : List (String × Entry)) (txt : Option String) :
    List StoreOp × Option PyErr :=
  let pre := (if fsExists dbPath then [StoreOp.removeDb] else []) ++ [StoreOp.initSchema]
  match runJson entries with
  | (st, some err) => (pre ++ st.events.map StoreOp.write, some err)
  | (st, none) =>
    let st := match txt with
      | some content => runTextPass st content
      | none => st
    (pre ++ st.events.map StoreOp.write ++ [StoreOp.createIndexes], none)

/-- `ingest`: paths are taken already resolved (`expanduser`/`resolve`
are absorbed into the path abstraction) and the filesystem is an
existence oracle; `entries` is the decoded content of the JSON document
and `txtContent` the decoded content of the optional text dump.  The
existence checks of both inputs run before anything touches the store. -/
def ingestOps (fsExists : String → Bool) (jsonPath dbPath : String)
    (txtPath : Option String) (entries : List (String × Entry))
    (txtContent : String) : List StoreOp × Option PyErr :=
  if !fsExists jsonPath then ([], some (PyErr.fileNotFound jsonPath))
  else
    match txtPath with
    | some t =>
      if !fsExists t then ([], some (PyErr.fileNotFound t))
      else ingestBody fsExists dbPath entries (some txtContent)
    | none => ingestBody fsExists dbPath entries none

section Helpers

/-- `Except` bind hits `ok` exactly when both stages do. -/
theorem exceptBind_ok {ε α β : Type} (x : Except ε α) (f : α → Except ε β) (b : β) :
    (x >>= f) = Except.ok b ↔ ∃ a, x = Except.ok a ∧ f a = Except.ok b := by
  cases x <;> simp [Bind.bind, Except.bind]

end Helpers

/-- C6: the Markup Tokenizer on `"#P1# reported <PMID:123> under {note} (extra)"`
yields protein tokens `["P1"]`, reference tokens `["PMID:123"]`, qualifier
tokens `["note", "extra"]` (the brace match listed before the parenthesis
match), and the cleaned string `"P1 reported under note extra"`: the hash,
brace and parenthesis delimiters are stripped with the inner text retained,
the angle token is removed entirely, and whitespace is collapsed to single
spaces. -/
theorem markupTokenizer_example :
    tokenizeValue "#P1# reported <PMID:123> under \x7bnote\x7d (extra)" =
      (["P1"], ["PMID:123"], ["note", "extra"],
        "P1 reported under note extra") := by decide

/-- C4: the Flat-File Record Scanner on `"ID\tE1\nAB\tfoo\n\tbar\nCD\tbaz\n///\n"`
emits exactly two TextFact rows, both for EC `E1`: field code `AB` with value
`"foo bar"` (the continuation joined with a single space) and field code `CD`
with value `"baz"`; moreover, from the reset state a `///` terminator leaves
the scanner in, no line other than an `ID` record-start line emits a row or
changes the state, so nothing is emitted past `///` until a new record is
established. -/
theorem flatFileScanner_example_and_reset :
    (iterTextRecords "ID\tE1\nAB\tfoo\n\tbar\nCD\tbaz\n///\n" =
      [⟨"E1", "AB", none, "foo bar", "foo bar", none, none, none⟩,
       ⟨"E1", "CD", none, "baz", "baz", none, none, none⟩]) ∧
    ∀ line : String, ¬ pyStartsWith line "ID\t" = true →
      scanStep ⟨none, none, []⟩ line = (⟨none, none, []⟩, []) := by
  refine ⟨by decide, ?_⟩
  intro line h
  unfold scanStep
  split_ifs with h1 h2 h3 <;> simp_all [flushTextRecord]

/-- Witness for C4: the general reset conjunct applied to a tagged field
line, which from the reset state emits nothing and changes nothing. -/
theorem flatFileScanner_example_and_reset_witness :
    scanStep ⟨none, none, []⟩ "AB\tfoo" = (⟨none, none, []⟩, []) :=
  flatFileScanner_example_and_reset.2 "AB\tfoo" (by decide)

/-- `pyFloatE` fails exactly with a `ValueError`, when the conversion fails. -/
theorem pyFloatE_error_iff (s : String) (e : PyErr) :
    pyFloatE s = Except.error e ↔ (pyFloat s = none ∧ e = PyErr.valueError) := by
  unfold pyFloatE; cases pyFloat s <;> simp [eq_comm]

/-- `pyFloatE` succeeds exactly when the conversion does. -/
theorem pyFloatE_ok_iff (s : String) (q : ℚ) :
    pyFloatE s = Except.ok q ↔ pyFloat s = some q := by
  unfold pyFloatE; cases pyFloat s <;> simp

/-- `lowHighE` can only fail with a `ValueError` (the only fallible step
is the numeric conversion). -/
theorem lowHighE_error_valueError (ns : List String) (e : PyErr)
    (h : lowHighE ns = Except.error e) : e = PyErr.valueError := by
  unfold lowHighE at h
  repeat' split at h
  all_goals simp_all [pyFloatE_error_iff, pyFloatE_ok_iff]

/-- `lowHighE` never succeeds with one null and one non-null bound. -/
theorem lowHighE_pair (ns : List String) (lo hi : Option ℚ)
    (h : lowHighE ns = Except.ok (lo, hi)) : (lo = none ↔ hi = none) := by
  unfold lowHighE at h
  repeat' split at h
  all_goals simp_all [pyFloatE_error_iff, pyFloatE_ok_iff]
  all_goals (obtain ⟨h1, h2⟩ := h; subst h1; subst h2; simp)

/-- C10: for every input value string, `_parse_value` returns `low` and
`high` either both null or both non-null: the bounds are assigned together
from the first and last matched number, and any conversion failure nulls
both. -/
theorem parseValue_low_high_together (s : String) :
    ((parseValue s).low = none ↔ (parseValue s).high = none) := by
  show ((lowHighOf (parseNumbers s)).1 = none ↔ (lowHighOf (parseNumbers s)).2 = none)
  unfold lowHighOf
  cases h : lowHighE (parseNumbers s) with
  | ok p => simpa using lowHighE_pair _ p.1 p.2 (by rw [h])
  | error e => simp

/-- C9: `_parse_value` never raises: the only fallible step (numeric
conversion) sits under `except ValueError`, which degrades to null numeric
fields, so the exception-explicit run always returns `ok` with the pure
result; and a value whose body has no matched number yields null `low`,
`high` and `unit`. -/
theorem parseValueE_never_raises (s : String) :
    parseValueE s = Except.ok (parseValue s) ∧
    (findNums (parseBody s).1 = [] →
      (parseValue s).low = none ∧ (parseValue s).high = none ∧
        (parseValue s).unit = none) := by
  constructor
  · unfold parseValueE parseValue lowHighOf
    cases h : lowHighE (parseNumbers s) with
    | ok p => simp
    | error e =>
      have he := lowHighE_error_valueError _ e h
      subst he
      simp
  · intro h
    have hn : parseNumbers s = [] := by simp [parseNumbers, h]
    unfold parseValue lowHighOf lowHighE unitOf
    simp [hn]

/-- Witness for C9 at a numberless input. -/
theorem parseValueE_never_raises_witness :
    parseValueE "abc" = Except.ok (parseValue "abc") ∧
    ((parseValue "abc").low = none ∧ (parseValue "abc").high = none ∧
      (parseValue "abc").unit = none) :=
  ⟨(parseValueE_never_raises "abc").1,
    (parseValueE_never_raises "abc").2 (by decide)⟩

/-- C8: if the primary JSON input does not exist, or a text-dump path was
explicitly supplied and that file does not exist, `ingest` raises a
`FileNotFoundError` before any operation touches the destination store
(the existence checks precede the database rebuild). -/
theorem ingest_missing_input_fails_fast (fs : String → Bool)
    (jsonPath dbPath : String) (txtPath : Option String)
    (entries : List (String × Entry)) (txtContent : String)
    (h : fs jsonPath = false ∨ ∃ t, txtPath = some t ∧ fs t = false) :
    (ingestOps fs jsonPath dbPath txtPath entries txtContent).1 = [] ∧
    (∃ p, (ingestOps fs jsonPath dbPath txtPath entries txtContent).2 =
      some (PyErr.fileNotFound p)) := by
  unfold ingestOps
  rcases h with h | ⟨t, ht, hft⟩
  · rw [h]
    exact ⟨rfl, jsonPath, rfl⟩
  · subst ht
    cases hj : fs jsonPath with
    | false => exact ⟨rfl, jsonPath, rfl⟩
    | true => simp [hft]

/-- Witness for C8: a filesystem with neither input present. -/
theorem ingest_missing_input_fails_fast_witness :
    (ingestOps (fun _ => false) "brenda.json" "brenda.db" none [] "").1 = [] ∧
    (∃ p, (ingestOps (fun _ => false) "brenda.json" "brenda.db" none [] "").2 =
      some (PyErr.fileNotFound p)) :=
  ingest_missing_input_fails_fast (fun _ => false) "brenda.json" "brenda.db"
    none [] "" (Or.inl rfl)

/-- Counterexample to C2 as stated: the value string `"{5}"` contains the
substring `"5"`, which matches the decimal-number grammar (the scan of the
whole string finds it), yet the Value Parser returns a null `low` rather
than the first number: the trailing brace segment is removed as context
before numbers are sought, so a number occurring only inside it is never
parsed. -/
theorem valueParser_misses_number_in_context :
    (findNums "\x7b5\x7d".toList).map NumTok.render = [['5']] ∧
    (parseValue "\x7b5\x7d").low = none ∧
    (parseValue "\x7b5\x7d").context = some "5" := by decide

/-- Counterexample to C7 as stated: cleaning is not idempotent.  On
`"((a))"` one pass strips only the inner parenthesis pair (the outer pair
has no directly enclosed bracket-free content), so a second pass strips
another level and changes the string again. -/
theorem stripMarkup_not_idempotent :
    stripMarkup "((a))" = "(a)" ∧
    stripMarkup (stripMarkup "((a))") ≠ stripMarkup "((a))" := by decide

/-- `takeWhile` distributes over an append whose first block satisfies
the predicate throughout. -/
theorem takeWhile_append_of_all {p : Char → Bool} (d r : List Char)
    (h : ∀ c ∈ d, p c = true) : (d ++ r).takeWhile p = d ++ r.takeWhile p := by
  induction d with
  | nil => simp
  | cons c cs ih =>
    simp only [List.cons_append, List.takeWhile_cons_of_pos (h c (by simp))]
    rw [ih fun x hx => h x (by simp [hx])]

/-- `dropWhile` skips an append's first block when it satisfies the
predicate throughout. -/
theorem dropWhile_append_of_all {p : Char → Bool} (d r : List Char)
    (h : ∀ c ∈ d, p c = true) : (d ++ r).dropWhile p = r.dropWhile p := by
  induction d with
  | nil => simp
  | cons c cs ih =>
    simp only [List.cons_append, List.dropWhile_cons_of_pos (h c (by simp))]
    exact ih fun x hx => h x (by simp [hx])

/-- Wellformedness of the tokens the number scanner produces: the pieces
are digit runs of the right shapes, so the rendered text re-parses. -/
structure TokWF (t : NumTok) : Prop where
  sign_cases : t.sign = none ∨ t.sign = some '+' ∨ t.sign = some '-'
  int_digits : ∀ c ∈ t.intPart, c.isDigit = true
  mantissa_nonempty : t.intPart ≠ [] ∨ t.fracPart ≠ none
  frac_wf : ∀ d, t.fracPart = some d → d ≠ [] ∧ ∀ c ∈ d, c.isDigit = true
  exp_wf : ∀ e s d, t.expPart = some (e, s, d) →
    (e = 'e' ∨ e = 'E') ∧ (s = none ∨ s = some '+' ∨ s = some '-') ∧
    d ≠ [] ∧ ∀ c ∈ d, c.isDigit = true

/-- The mantissa matcher yields digit runs of the right shapes. -/
theorem matchMantissa_wf (l d1 : List Char) (f : Option (List Char))
    (r : List Char) (h : matchMantissa l = some ((d1, f), r)) :
    (∀ c ∈ d1, c.isDigit = true) ∧ (d1 ≠ [] ∨ f ≠ none) ∧
    (∀ d, f = some d → d ≠ [] ∧ ∀ c ∈ d, c.isDigit = true) := by
  unfold matchMantissa at h
  dsimp only at h
  split at h
  · rename_i r2 heq
    split at h
    · split at h
      · simp at h
      · simp only [Option.some.injEq, Prod.mk.injEq] at h
        obtain ⟨⟨h1, h2⟩, h3⟩ := h
        subst h1; subst h3
        refine ⟨fun c hc => List.mem_takeWhile_imp hc, Or.inl (by assumption), ?_⟩
        intro d hd; simp [h2.symm] at hd
    · simp only [Option.some.injEq, Prod.mk.injEq] at h
      obtain ⟨⟨h1, h2⟩, h3⟩ := h
      subst h1; subst h3
      refine ⟨fun c hc => List.mem_takeWhile_imp hc, Or.inr (by simp [h2.symm]), ?_⟩
      intro d hd
      rw [← h2] at hd
      simp only [Option.some.injEq] at hd
      subst hd
      refine ⟨by assumption, fun c hc => List.mem_takeWhile_imp hc⟩
  · split at h
    · simp at h
    · simp only [Option.some.injEq, Prod.mk.injEq] at h
      obtain ⟨⟨h1, h2⟩, h3⟩ := h
      subst h1; subst h3
      refine ⟨fun c hc => List.mem_takeWhile_imp hc, Or.inl (by assumption), ?_⟩
      intro d hd; simp [h2.symm] at hd

/-- The exponent matcher yields a wellformed exponent part. -/
theorem matchExp_wf (l : List Char) (e : Char) (s : Option Char)
    (d : List Char) (h : (matchExp l).1 = some (e, s, d)) :
    (e = 'e' ∨ e = 'E') ∧ (s = none ∨ s = some '+' ∨ s = some '-') ∧
    d ≠ [] ∧ ∀ c ∈ d, c.isDigit = true := by
  unfold matchExp at h
  dsimp only at h
  split at h
  · rename_i e' rest
    split at h
    · rename_i he
      split at h
      · rename_i sc rest2
        split at h
        · rename_i hs
          split at h
          · simp at h
          · simp only [Option.some.injEq, Prod.mk.injEq] at h
            obtain ⟨h1, h2, h3⟩ := h
            subst h1; subst h2; subst h3
            exact ⟨he, Or.inr (Or.imp (fun x => by simp [x]) (fun x => by simp [x]) hs),
              by assumption, fun c hc => List.mem_takeWhile_imp hc⟩
        · split at h
          · simp at h
          · simp only [Option.some.injEq, Prod.mk.injEq] at h
            obtain ⟨h1, h2, h3⟩ := h
            subst h1; subst h2; subst h3
            exact ⟨he, Or.inl rfl, by assumption,
              fun c hc => List.mem_takeWhile_imp hc⟩
      · simp at h
    · simp at h
  · simp at h

/-- The anchored number matcher only produces wellformed tokens. -/
theorem matchNumAt_wf (l : List Char) (t : NumTok) (r : List Char)
    (h : matchNumAt l = some (t, r)) : TokWF t := by
  unfold matchNumAt at h
  split at h
  · simp at h
  · rename_i c cs
    split at h
    · rename_i hc
      cases hm : matchMantissa cs with
      | none => rw [hm] at h; simp at h
      | some pr =>
        rw [hm] at h
        obtain ⟨⟨d1, f⟩, rm⟩ := pr
        have hw := matchMantissa_wf cs d1 f rm hm
        simp only [Option.some.injEq, Prod.mk.injEq] at h
        obtain ⟨h1, h2⟩ := h
        subst h1
        exact ⟨Or.inr (Or.imp (fun x => by simp [x]) (fun x => by simp [x]) hc),
          hw.1, hw.2.1, hw.2.2,
          fun e s d hd => matchExp_wf rm e s d (by rw [hd.symm])⟩
    · cases hm : matchMantissa (c :: cs) with
      | none => rw [hm] at h; simp at h
      | some pr =>
        rw [hm] at h
        obtain ⟨⟨d1, f⟩, rm⟩ := pr
        have hw := matchMantissa_wf (c :: cs) d1 f rm hm
        simp only [Option.some.injEq, Prod.mk.injEq] at h
        obtain ⟨h1, h2⟩ := h
        subst h1
        exact ⟨Or.inl rfl, hw.1, hw.2.1, hw.2.2,
          fun e s d hd => matchExp_wf rm e s d (by rw [hd.symm])⟩

/-- Every token the findall scan returns is wellformed. -/
theorem findNumsAux_wf (n : Nat) (l : List Char) (t : NumTok)
    (h : t ∈ findNumsAux n l) : TokWF t := by
  induction n generalizing l with
  | zero => simp [findNumsAux] at h
  | succ n ih =>
    cases l with
    | nil => simp [findNumsAux] at h
    | cons c cs =>
      unfold findNumsAux at h
      cases hm : matchNumAt (c :: cs) with
      | none => rw [hm] at h; exact ih cs h
      | some pr =>
        rw [hm] at h
        obtain ⟨t', r⟩ := pr
        simp only [List.mem_cons] at h
        cases h with
        | inl he => subst he; exact matchNumAt_wf _ _ _ hm
        | inr hm' => exact ih r hm'

/-- Every token `findNums` returns is wellformed. -/
theorem findNums_wf (l : List Char) (t : NumTok) (h : t ∈ findNums l) :
    TokWF t :=
  findNumsAux_wf l.length l t h

/-- A digit character is none of the pattern's structural characters. -/
theorem isDigit_not_special (c : Char) (h : c.isDigit = true) :
    c ≠ '+' ∧ c ≠ '-' ∧ c ≠ '.' ∧ c ≠ 'e' ∧ c ≠ 'E' := by
  refine ⟨?_, ?_, ?_, ?_, ?_⟩ <;> intro hc <;> subst hc <;> exact absurd h (by decide)

/-- `takeWhile` keeps a list all of whose elements satisfy the predicate. -/
theorem takeWhile_all {p : Char → Bool} (d : List Char)
    (h : ∀ c ∈ d, p c = true) : d.takeWhile p = d := by
  have := takeWhile_append_of_all d [] h
  simpa using this

/-- `dropWhile` empties a list all of whose elements satisfy the predicate. -/
theorem dropWhile_all {p : Char → Bool} (d : List Char)
    (h : ∀ c ∈ d, p c = true) : d.dropWhile p = [] := by
  have := dropWhile_append_of_all d [] h
  simpa using this

/-- The rendered mantissa, followed by text that opens with neither a digit
nor a dot, re-matches to exactly the same components. -/
theorem matchMantissa_render (d1 : List Char) (f : Option (List Char))
    (rest : List Char)
    (h1 : ∀ c ∈ d1, c.isDigit = true)
    (hm : d1 ≠ [] ∨ f ≠ none)
    (hf : ∀ d, f = some d → d ≠ [] ∧ ∀ c ∈ d, c.isDigit = true)
    (hrest : rest = [] ∨ ∃ c cs, rest = c :: cs ∧ c.isDigit = false ∧ c ≠ '.') :
    matchMantissa (d1 ++ fracRender f ++ rest) = some ((d1, f), rest) := by
  have hTW : rest.takeWhile Char.isDigit = [] := by
    rcases hrest with he | ⟨c, cs, he, hcd, _⟩
    · simp [he]
    · subst he; simp [List.takeWhile_cons_of_neg, hcd]
  have hDW : rest.dropWhile Char.isDigit = rest := by
    rcases hrest with he | ⟨c, cs, he, hcd, _⟩
    · simp [he]
    · subst he; simp [List.dropWhile_cons_of_neg, hcd]
  cases f with
  | none =>
    have hd1 : d1 ≠ [] := hm.resolve_right (by simp)
    unfold matchMantissa fracRender
    dsimp only
    rw [show d1 ++ [] ++ rest = d1 ++ rest by simp,
      takeWhile_append_of_all d1 rest h1, dropWhile_append_of_all d1 rest h1,
      hTW, hDW]
    rcases hrest with he | ⟨c, cs, he, hcd, hcdot⟩
    · subst he
      simp [hd1]
    · subst he
      have hred : (match c :: cs with
          | '.' :: r2 =>
            if (c :: cs).takeWhile Char.isDigit = [] then
              if d1 ++ [] = [] then
                (none : Option ((List Char × Option (List Char)) × List Char))
              else some ((d1 ++ [], none), c :: cs)
            else some ((d1 ++ [], some ((c :: cs).takeWhile Char.isDigit)),
              (c :: cs).dropWhile Char.isDigit)
          | _ =>
            if d1 ++ [] = [] then none else some ((d1 ++ [], none), c :: cs)) =
          (if d1 ++ [] = [] then none else some ((d1 ++ [], none), c :: cs)) := by
        split
        · rename_i r2 heq
          exact absurd (List.cons.inj heq).1 hcdot
        · rfl
      simp_all [hd1]
  | some d =>
    obtain ⟨hdne, hddig⟩ := hf d rfl
    unfold matchMantissa fracRender
    dsimp only
    rw [show d1 ++ '.' :: d ++ rest = d1 ++ '.' :: (d ++ rest) by simp,
      takeWhile_append_of_all d1 _ h1, dropWhile_append_of_all d1 _ h1,
      List.takeWhile_cons_of_neg (by decide : ¬Char.isDigit '.' = true),
      List.dropWhile_cons_of_neg (by decide : ¬Char.isDigit '.' = true)]
    have hTW2 : (d ++ rest).takeWhile Char.isDigit = d := by
      rw [takeWhile_append_of_all d rest hddig, hTW]; simp
    have hDW2 : (d ++ rest).dropWhile Char.isDigit = rest := by
      rw [dropWhile_append_of_all d rest hddig, hDW]
    simp [hTW2, hDW2, hdne]

/-- The rendered (optional) exponent re-matches to exactly the same
components, with nothing left over. -/
theorem matchExp_render (ex : Option (Char × Option Char × List Char))
    (hwf : ∀ e s d, ex = some (e, s, d) →
      (e = 'e' ∨ e = 'E') ∧ (s = none ∨ s = some '+' ∨ s = some '-') ∧
      d ≠ [] ∧ ∀ c ∈ d, c.isDigit = true) :
    matchExp (expRender ex) = (ex, []) := by
  cases ex with
  | none => rfl
  | some esd =>
    obtain ⟨e, s, d⟩ := esd
    obtain ⟨he, hs, hd, hdig⟩ := hwf e s d rfl
    cases s with
    | none =>
      cases d with
      | nil => exact absurd rfl hd
      | cons dh dt =>
        have hdh : dh.isDigit = true := hdig dh (by simp)
        have hns := isDigit_not_special dh hdh
        unfold matchExp expRender
        simp only [Option.toList_none, List.nil_append]
        rw [if_pos he, if_neg (by simp [hns.1, hns.2.1]),
          takeWhile_all (dh :: dt) hdig, dropWhile_all (dh :: dt) hdig]
        simp [hd]
    | some sc =>
      have hsc : sc = '+' ∨ sc = '-' := by
        rcases hs with h | h | h
        · simp at h
        · exact Or.inl (by simpa using h)
        · exact Or.inr (by simpa using h)
      unfold matchExp expRender
      simp only [Option.toList_some, List.singleton_append, List.cons_append]
      rw [if_pos he, if_pos hsc, List.nil_append,
        takeWhile_all d hdig, dropWhile_all d hdig]
      simp [hd]

/-- The rendered text of a wellformed token re-matches to exactly that
token, with nothing left over. -/
theorem matchNumAt_render (t : NumTok) (h : TokWF t) :
    matchNumAt t.render = some (t, []) := by
  obtain ⟨hsign, hint, hm, hf, hex⟩ := h
  have hrest : expRender t.expPart = [] ∨
      ∃ c cs, expRender t.expPart = c :: cs ∧ c.isDigit = false ∧ c ≠ '.' := by
    cases hexp : t.expPart with
    | none => exact Or.inl rfl
    | some esd =>
      obtain ⟨e, s, d⟩ := esd
      obtain ⟨he, _, _, _⟩ := hex e s d hexp
      refine Or.inr ⟨e, s.toList ++ d, rfl, ?_, ?_⟩
      · rcases he with he | he <;> subst he <;> decide
      · rcases he with he | he <;> subst he <;> decide
  have hmant := matchMantissa_render t.intPart t.fracPart (expRender t.expPart)
    hint hm hf hrest
  have hexp := matchExp_render t.expPart hex
  have hL : t.intPart ++ fracRender t.fracPart ++ expRender t.expPart ≠ [] := by
    cases hip : t.intPart with
    | cons c1 cs1 => simp
    | nil =>
      have hfr : t.fracPart ≠ none := (hip ▸ hm).resolve_left (by simp)
      cases hfp : t.fracPart with
      | none => exact absurd hfp hfr
      | some d => simp [hfp, fracRender]
  have hhead : ∀ c,
      (t.intPart ++ fracRender t.fracPart ++ expRender t.expPart).head? =
        some c → ¬(c = '+' ∨ c = '-') := by
    intro c hc
    cases hip : t.intPart with
    | cons c1 cs1 =>
      rw [hip] at hc
      simp at hc
      have hns := isDigit_not_special c1 (hint c1 (by simp [hip]))
      subst hc
      simp [hns.1, hns.2.1]
    | nil =>
      have hfr : t.fracPart ≠ none := (hip ▸ hm).resolve_left (by simp)
      cases hfp : t.fracPart with
      | none => exact absurd hfp hfr
      | some d =>
        rw [hip, hfp] at hc
        simp [fracRender] at hc
        subst hc
        decide
  cases hsgn : t.sign with
  | none =>
    have hrender : t.render =
        t.intPart ++ fracRender t.fracPart ++ expRender t.expPart := by
      unfold NumTok.render
      rw [hsgn]
      rfl
    rw [hrender]
    cases hL2 : t.intPart ++ fracRender t.fracPart ++ expRender t.expPart with
    | nil => exact absurd hL2 hL
    | cons c cs =>
      simp only [matchNumAt]
      rw [if_neg (hhead c (by rw [hL2]; rfl))]
      rw [← hL2, hmant]
      dsimp only
      rw [hexp]
      have ht : (⟨none, t.intPart, t.fracPart, t.expPart⟩ : NumTok) = t := by
        cases t; simp_all
      simp [ht]
  | some sc =>
    have hscOr : sc = '+' ∨ sc = '-' := by
      rcases hsign with h | h | h
      · simp [hsgn] at h
      · exact Or.inl (by rw [hsgn] at h; simpa using h)
      · exact Or.inr (by rw [hsgn] at h; simpa using h)
    have hrender : t.render =
        sc :: (t.intPart ++ fracRender t.fracPart ++ expRender t.expPart) := by
      unfold NumTok.render
      rw [hsgn]
      rfl
    rw [hrender]
    simp only [matchNumAt]
    rw [if_pos hscOr, hmant]
    dsimp only
    rw [hexp]
    have ht : (⟨some sc, t.intPart, t.fracPart, t.expPart⟩ : NumTok) = t := by
      cases t; simp_all
    simp [ht]

/-- `float` applied to a wellformed token's text returns its value. -/
theorem pyFloat_render (t : NumTok) (h : TokWF t) :
    pyFloat (String.mk t.render) = some t.val := by
  unfold pyFloat
  have hl : (String.mk t.render).toList = t.render := rfl
  rw [hl, matchNumAt_render t h]

/-- C2 amended: numbers are sought in the body that remains after the
trailing brace-delimited context is removed (a number occurring only
inside that context is not seen; see the counterexample).  For every
value string whose remaining body contains at least one substring
matching the decimal-number grammar, `low` is the first such number and
`high` the last, both parsed as floating values, and when exactly one
number is present, `low` equals `high`. -/
theorem valueParser_first_last (s : String)
    (h : findNums (parseBody s).1 ≠ []) :
    ∃ t0 tn, (findNums (parseBody s).1).head? = some t0 ∧
      (findNums (parseBody s).1).getLast? = some tn ∧
      (parseValue s).low = some t0.val ∧
      (parseValue s).high = some tn.val ∧
      ((findNums (parseBody s).1).length = 1 →
        (parseValue s).low = (parseValue s).high) := by
  cases htoks : findNums (parseBody s).1 with
  | nil => exact absurd htoks h
  | cons t0 rest =>
    have hwf0 : TokWF t0 := findNums_wf _ _ (by rw [htoks]; simp)
    obtain ⟨tn, hgl⟩ : ∃ tn, (t0 :: rest).getLast? = some tn := by
      cases hgl : (t0 :: rest).getLast? with
      | none => simp at hgl
      | some x => exact ⟨x, rfl⟩
    have hwfn : TokWF tn :=
      findNums_wf _ _ (htoks ▸ List.mem_of_getLast?_eq_some hgl)
    have hns : parseNumbers s = (t0 :: rest).map fun t => String.mk t.render := by
      unfold parseNumbers
      rw [htoks]
    have hh : (parseNumbers s).head? = some (String.mk t0.render) := by
      rw [hns]; simp
    have hl : (parseNumbers s).getLast? = some (String.mk tn.render) := by
      rw [hns, List.getLast?_map, hgl]; rfl
    have h0 : pyFloatE (String.mk t0.render) = Except.ok t0.val := by
      unfold pyFloatE
      rw [pyFloat_render t0 hwf0]
    have hn : pyFloatE (String.mk tn.render) = Except.ok tn.val := by
      unfold pyFloatE
      rw [pyFloat_render tn hwfn]
    have hlhe : lowHighE (parseNumbers s) =
        Except.ok (some t0.val, some tn.val) := by
      unfold lowHighE
      rw [hh, hl]
      dsimp only
      rw [h0]
      dsimp only
      rw [hn]
    have hlow : (parseValue s).low = some t0.val := by
      show (lowHighOf (parseNumbers s)).1 = some t0.val
      unfold lowHighOf
      rw [hlhe]
    have hhigh : (parseValue s).high = some tn.val := by
      show (lowHighOf (parseNumbers s)).2 = some tn.val
      unfold lowHighOf
      rw [hlhe]
    refine ⟨t0, tn, by simp, hgl, hlow, hhigh, ?_⟩
    intro hlen
    have hrest : rest = [] := by
      simp at hlen
      exact hlen
    subst hrest
    have : tn = t0 := by simpa using hgl.symm
    subst this
    rw [hlow, hhigh]

/-- Witness for C2 amended, at `"2.5 - 10.5 mg/ml"`: the first and last
numbers land in `low` and `high`. -/
theorem valueParser_first_last_witness :
    ∃ t0 tn, (findNums (parseBody "2.5 - 10.5 mg/ml").1).head? = some t0 ∧
      (findNums (parseBody "2.5 - 10.5 mg/ml").1).getLast? = some tn ∧
      (parseValue "2.5 - 10.5 mg/ml").low = some t0.val ∧
      (parseValue "2.5 - 10.5 mg/ml").high = some tn.val ∧
      ((findNums (parseBody "2.5 - 10.5 mg/ml").1).length = 1 →
        (parseValue "2.5 - 10.5 mg/ml").low =
          (parseValue "2.5 - 10.5 mg/ml").high) :=
  valueParser_first_last "2.5 - 10.5 mg/ml" (by decide)

/-- A `sub` scan over text with no match anywhere keeps it unchanged. -/
theorem subTokAux_id_of_no_match (op cl : Char) (bad : Char → Bool)
    (keep : Bool) (n : Nat) (l : List Char)
    (h : findTokAux op cl bad n l = []) :
    subTokAux op cl bad keep n l = l := by
  induction n generalizing l with
  | zero => rfl
  | succ n ih =>
    cases l with
    | nil => rfl
    | cons c cs =>
      unfold findTokAux at h
      unfold subTokAux
      cases hm : tokMatchAt op cl bad (c :: cs) with
      | some pr =>
        rw [hm] at h
        obtain ⟨t, r⟩ := pr
        simp at h
      | none =>
        rw [hm] at h
        dsimp only at h ⊢
        rw [ih cs h]

/-- Well-spaced text: every whitespace character is a plain space and no
two whitespace characters are adjacent (the shape `collapseWs` produces). -/
def WsOk (l : List Char) : Prop :=
  (∀ c ∈ l, pySpace c = true → c = ' ') ∧
  l.Chain' fun a b => ¬(pySpace a = true ∧ pySpace b = true)

/-- The head of a list is not whitespace (or the list is empty). -/
def HeadNotSpace (l : List Char) : Prop :=
  ∀ c, l.head? = some c → pySpace c = false

/-- The collapse pass produces well-spaced text, and with the flag set its
output cannot open with whitespace. -/
theorem collapseAux_spec (l : List Char) :
    WsOk (collapseAux false l) ∧ WsOk (collapseAux true l) ∧
    HeadNotSpace (collapseAux true l) := by
  induction l with
  | nil =>
    refine ⟨⟨?_, ?_⟩, ⟨?_, ?_⟩, ?_⟩ <;> simp [collapseAux, HeadNotSpace]
  | cons c cs ih =>
    obtain ⟨ihF, ihT, ihH⟩ := ih
    cases hsp : pySpace c with
    | true =>
      have hcons : WsOk (' ' :: collapseAux true cs) := by
        refine ⟨?_, ?_⟩
        · intro x hx _
          rcases List.mem_cons.mp hx with hx | hx
          · exact hx
          · exact ihT.1 x hx (by assumption)
        · rw [List.chain'_cons']
          refine ⟨fun y hy => ?_, ihT.2⟩
          intro ⟨_, hy2⟩
          rw [ihH y (by simpa using hy)] at hy2
          exact Bool.false_ne_true hy2
      constructor
      · show WsOk (collapseAux false (c :: cs))
        unfold collapseAux
        rw [hsp]
        exact hcons
      constructor
      · show WsOk (collapseAux true (c :: cs))
        unfold collapseAux
        rw [hsp]
        exact ihT
      · show HeadNotSpace (collapseAux true (c :: cs))
        unfold collapseAux
        rw [hsp]
        exact ihH
    | false =>
      have hcons : WsOk (c :: collapseAux false cs) := by
        refine ⟨?_, ?_⟩
        · intro x hx hxs
          rcases List.mem_cons.mp hx with hx | hx
          · subst hx; rw [hsp] at hxs; exact absurd hxs Bool.false_ne_true
          · exact ihF.1 x hx hxs
        · rw [List.chain'_cons']
          refine ⟨fun y hy => ?_, ihF.2⟩
          intro ⟨hy1, _⟩
          rw [hsp] at hy1
          exact Bool.false_ne_true hy1
      constructor
      · show WsOk (collapseAux false (c :: cs))
        unfold collapseAux
        rw [hsp]
        exact hcons
      constructor
      · show WsOk (collapseAux true (c :: cs))
        unfold collapseAux
        rw [hsp]
        exact hcons
      · show HeadNotSpace (collapseAux true (c :: cs))
        unfold collapseAux
        rw [hsp]
        intro x hx
        simp at hx
        subst hx
        exact hsp

/-- Well-spacedness passes to the tail. -/
theorem WsOk.tail {c : Char} {cs : List Char} (h : WsOk (c :: cs)) :
    WsOk cs :=
  ⟨fun x hx => h.1 x (by simp [hx]), (List.chain'_cons'.mp h.2).2⟩

/-- Well-spacedness survives `dropWhile`. -/
theorem wsOk_dropWhile (p : Char → Bool) (l : List Char) (h : WsOk l) :
    WsOk (l.dropWhile p) := by
  induction l with
  | nil => simpa using h
  | cons c cs ih =>
    cases hp : p c with
    | true => rw [List.dropWhile_cons_of_pos hp]; exact ih h.tail
    | false => rw [List.dropWhile_cons_of_neg (by simp [hp])]; exact h

/-- Well-spacedness survives reversal. -/
theorem wsOk_reverse (l : List Char) (h : WsOk l) : WsOk l.reverse := by
  refine ⟨fun c hc => h.1 c (List.mem_reverse.mp hc), ?_⟩
  rw [List.chain'_reverse]
  exact h.2.imp fun a b hr hab => hr ⟨hab.2, hab.1⟩

/-- Well-spacedness survives stripping. -/
theorem wsOk_pyStripList (l : List Char) (h : WsOk l) :
    WsOk (pyStripList l) :=
  wsOk_reverse _ (wsOk_dropWhile _ _ (wsOk_reverse _ (wsOk_dropWhile _ _ h)))

/-- The collapse pass is the identity on well-spaced text. -/
theorem collapseAux_id_of_wsOk (l : List Char) (h : WsOk l) :
    collapseAux false l = l ∧ (HeadNotSpace l → collapseAux true l = l) := by
  induction l with
  | nil => exact ⟨rfl, fun _ => rfl⟩
  | cons c cs ih =>
    obtain ⟨ihF, ihT⟩ := ih h.tail
    cases hsp : pySpace c with
    | true =>
      have hc : c = ' ' := h.1 c (by simp) hsp
      have hhead : HeadNotSpace cs := by
        intro y hy
        have := (List.chain'_cons'.mp h.2).1 y (by simpa using hy)
        cases hys : pySpace y with
        | false => rfl
        | true => exact absurd ⟨hsp, hys⟩ this
      constructor
      · unfold collapseAux
        rw [hsp]
        simp [ihT hhead, hc]
      · intro hhn
        have := hhn c rfl
        rw [hsp] at this
        exact absurd this (by decide)
    | false =>
      constructor
      · unfold collapseAux
        rw [hsp]
        simp [ihF]
      · intro _
        unfold collapseAux
        rw [hsp]
        simp [ihF]

/-- `dropWhile` leaves a list whose head fails the predicate unchanged. -/
theorem dropWhile_id_of_headNot (l : List Char) (h : HeadNotSpace l) :
    l.dropWhile pySpace = l := by
  cases l with
  | nil => rfl
  | cons c cs =>
    rw [List.dropWhile_cons_of_neg (by simp [h c rfl])]

/-- `dropWhile` produces a list whose head fails the predicate. -/
theorem headNotSpace_dropWhile (l : List Char) :
    HeadNotSpace (l.dropWhile pySpace) := by
  induction l with
  | nil => intro c hc; simp at hc
  | cons c cs ih =>
    cases hp : pySpace c with
    | true => rw [List.dropWhile_cons_of_pos hp]; exact ih
    | false =>
      rw [List.dropWhile_cons_of_neg (by simp [hp])]
      intro x hx
      simp at hx
      subst hx
      exact hp

/-- A non-empty `dropWhile` keeps the original last element. -/
theorem getLast?_dropWhile (p : Char → Bool) (l : List Char)
    (h : l.dropWhile p ≠ []) : (l.dropWhile p).getLast? = l.getLast? := by
  induction l with
  | nil => simp at h
  | cons c cs ih =>
    cases hp : p c with
    | false => rw [List.dropWhile_cons_of_neg (by simp [hp])]
    | true =>
      rw [List.dropWhile_cons_of_pos hp] at h ⊢
      cases hcs : cs with
      | nil => subst hcs; simp at h
      | cons d ds =>
        rw [← hcs, ih (by rwa [hcs] at h ⊢), hcs, List.getLast?_cons_cons]

/-- Stripped text cannot open with whitespace. -/
theorem headNotSpace_pyStripList (l : List Char) :
    HeadNotSpace (pyStripList l) := by
  intro c hc
  unfold pyStripList at hc
  rw [List.head?_reverse] at hc
  have hne : (l.dropWhile pySpace).reverse.dropWhile pySpace ≠ [] := by
    intro hnil
    rw [hnil] at hc
    simp at hc
  rw [getLast?_dropWhile pySpace _ hne, List.getLast?_reverse] at hc
  exact headNotSpace_dropWhile l c hc

/-- Stripped text cannot end with whitespace. -/
theorem lastNotSpace_pyStripList (l : List Char) :
    ∀ c, (pyStripList l).getLast? = some c → pySpace c = false := by
  intro c hc
  unfold pyStripList at hc
  rw [List.getLast?_reverse] at hc
  exact headNotSpace_dropWhile _ c hc

/-- Stripping is idempotent. -/
theorem pyStripList_idem (l : List Char) :
    pyStripList (pyStripList l) = pyStripList l := by
  have h1 : (pyStripList l).dropWhile pySpace = pyStripList l :=
    dropWhile_id_of_headNot _ (headNotSpace_pyStripList l)
  have h2 : HeadNotSpace (pyStripList l).reverse := by
    intro c hc
    rw [List.head?_reverse] at hc
    exact lastNotSpace_pyStripList l c hc
  unfold pyStripList
  show ((((pyStripList l).dropWhile pySpace).reverse.dropWhile pySpace)).reverse
    = pyStripList l
  rw [h1, dropWhile_id_of_headNot _ h2, List.reverse_reverse]

/-- C7 amended: re-running the cleaning pass on already-cleaned text is a
no-op provided the cleaned text retains no bracket-token pattern.  One
pass can leave such a pattern only when the source nested brackets of the
same style, in which case a second pass strips another level (see the
counterexample); on residue-free output the second pass only re-collapses
whitespace and re-strips, both of which are idempotent. -/
theorem stripMarkup_idem_of_no_residue (s : String)
    (h1 : hashFind (stripMarkup s).toList = [])
    (h2 : angleFind (stripMarkup s).toList = [])
    (h3 : braceFind (stripMarkup s).toList = [])
    (h4 : parenFind (stripMarkup s).toList = []) :
    stripMarkup (stripMarkup s) = stripMarkup s := by
  have hsub : ∀ (op cl : Char) (bad : Char → Bool) (keep : Bool)
      (l : List Char), findTok op cl bad l = [] → subTok op cl bad keep l = l :=
    fun op cl bad keep l hfind =>
      subTokAux_id_of_no_match op cl bad keep l.length l hfind
  show String.mk (pyStripList (collapseWs
    (subTok '(' ')' parenBad true
      (subTok '\x7b' '\x7d' braceBad true
        (subTok '<' '>' angleBad false
          (subTok '#' '#' hashBad true (stripMarkup s).toList)))))) =
    stripMarkup s
  rw [hsub _ _ _ _ _ h1, hsub _ _ _ _ _ h2, hsub _ _ _ _ _ h3,
    hsub _ _ _ _ _ h4]
  have hu : (stripMarkup s).toList =
      pyStripList (collapseWs (subTok '(' ')' parenBad true
        (subTok '\x7b' '\x7d' braceBad true
          (subTok '<' '>' angleBad false
            (subTok '#' '#' hashBad true s.toList))))) := rfl
  have hws : WsOk (stripMarkup s).toList := by
    rw [hu]
    exact wsOk_pyStripList _ (collapseAux_spec _).1
  have hcol : collapseWs (stripMarkup s).toList = (stripMarkup s).toList := by
    unfold collapseWs
    exact (collapseAux_id_of_wsOk _ hws).1
  rw [hcol, hu, pyStripList_idem]
  rfl

/-- Witness for C7 amended: a markup-bearing string whose cleaned form
retains no token pattern, so re-cleaning is a no-op. -/
theorem stripMarkup_idem_of_no_residue_witness :
    stripMarkup (stripMarkup "#P1#  reported <PMID:123> in \x7bnote\x7d (extra)") =
      stripMarkup "#P1#  reported <PMID:123> in \x7bnote\x7d (extra)" :=
  stripMarkup_idem_of_no_residue "#P1#  reported <PMID:123> in \x7bnote\x7d (extra)"
    (by decide) (by decide) (by decide) (by decide)

/-- The Enzyme denormalized counts as the spec describes them: the
lengths of the entry-level collections — the protein map, the synonyms,
the reactions, and the hand-picked high-value category collections
(Km values, turnover numbers, inhibitors) — with falsy payloads read as
empty.  This is the spec-side description, to be compared with the row
the source builds. -/
def specEnzymeCounts (e : Entry) :
    Except PyErr (Nat × Nat × Nat × Nat × Nat × Nat) :=
  match pyLen (pyOr (entryGet e "protein") (.dict [])),
        pyLen (pyOr (entryGet e "synonyms") (.list [])),
        pyLen (pyOr (entryGet e "reaction") (.list [])),
        pyLen (pyOr (entryGet e "km_value") (.list [])),
        pyLen (pyOr (entryGet e "turnover_number") (.list [])),
        pyLen (pyOr (entryGet e "inhibitor") (.list [])) with
  | Except.ok pc, Except.ok sc, Except.ok rc, Except.ok kc,
      Except.ok tc, Except.ok ic => Except.ok (pc, sc, rc, kc, tc, ic)
  | _, _, _, _, _, _ => Except.error PyErr.typeError

/-- The spec-side counts from the six collection-length facts. -/
theorem specCounts_of_lens (e : Entry) (pc sc rc kc tc ic : Nat)
    (hpc : pyLen (pyOr (entryGet e "protein") (.dict [])) = Except.ok pc)
    (hsc : pyLen (pyOr (entryGet e "synonyms") (.list [])) = Except.ok sc)
    (hrc : pyLen (pyOr (entryGet e "reaction") (.list [])) = Except.ok rc)
    (hkc : pyLen (pyOr (entryGet e "km_value") (.list [])) = Except.ok kc)
    (htc : pyLen (pyOr (entryGet e "turnover_number") (.list [])) = Except.ok tc)
    (hic : pyLen (pyOr (entryGet e "inhibitor") (.list [])) = Except.ok ic) :
    specEnzymeCounts e = Except.ok (pc, sc, rc, kc, tc, ic) := by
  unfold specEnzymeCounts
  rw [hpc, hsc, hrc, hkc, htc, hic]

/-- C5 amended: the denormalized counts on every built Enzyme row are
exactly the lengths of the entry-level collections (proteins, synonyms,
reactions, and the three hand-picked high-value categories km_value,
turnover_number and inhibitor, with falsy payloads read as empty) — not
counts of emitted EnzymeFact rows: a string-valued `km_value` payload
yields a km count equal to the string's length (4 for `"5 mM"`) while
emitting exactly one fact row. -/
theorem enzymeCounts_from_collections :
    (∀ (ec : String) (e : Entry) (row : EnzymeRow),
      buildEnzymeRow ec e = Except.ok row →
      specEnzymeCounts e = Except.ok (row.proteinCount, row.synonymCount,
        row.reactionCount, row.kmCount, row.turnoverCount,
        row.inhibitorCount)) ∧
    ((buildEnzymeRow "1.1.1.1" [("km_value", PyVal.str "5 mM")]).map
        EnzymeRow.kmCount = Except.ok 4 ∧
      (factRowsOf "1.1.1.1" [("km_value", PyVal.str "5 mM")]).length = 1) := by
  constructor
  · intro ec e row h
    unfold buildEnzymeRow at h
    dsimp only at h
    split at h
    · simp only [exceptBind_ok] at h
      obtain ⟨first, hfirst, h⟩ := h
      cases first <;>
        simp only [exceptBind_ok, pure, Except.pure, Except.ok.injEq,
          exists_eq_left'] at h <;>
        obtain ⟨pc, hpc, sc, hsc, rc, hrc, kc, hkc, tc, htc, ic, hic, hrow⟩ := h <;>
        rw [← hrow] <;>
        exact specCounts_of_lens e pc sc rc kc tc ic hpc hsc hrc hkc htc hic
    · simp only [exceptBind_ok, pure, Except.pure, Except.ok.injEq,
        exists_eq_left'] at h
      obtain ⟨pc, hpc, sc, hsc, rc, hrc, kc, hkc, tc, htc, ic, hic, hrow⟩ := h
      rw [← hrow]
      exact specCounts_of_lens e pc sc rc kc tc ic hpc hsc hrc hkc htc hic
  · exact ⟨by decide, by decide⟩

/-- Witness for C5 amended: the empty entry builds a row whose counts are
all zero, matching the spec-side collection lengths. -/
theorem enzymeCounts_from_collections_witness :
    specEnzymeCounts ([] : Entry) =
      Except.ok (0, 0, 0, 0, 0, 0) :=
  enzymeCounts_from_collections.1 "1.1.1.1" []
    ⟨"1.1.1.1", PyVal.none, PyVal.none, PyVal.none, PyVal.none,
      0, 0, 0, 0, 0, 0⟩ rfl

/-- An empty entry. -/
def eEmptyEntry : Entry := []

/-- An entry with only an inhibitor collection. -/
def eInhEntry : Entry := [("inhibitor", PyVal.list [PyVal.str "i"])]

/-- An entry with only a Km-value collection. -/
def eKmEntry : Entry := [("km_value", PyVal.list [PyVal.str "k"])]

/-- An entry with only a turnover-number collection. -/
def eTnEntry : Entry := [("turnover_number", PyVal.list [PyVal.str "t"])]

/-- Counterexample to C5 as stated: the Enzyme row's counts are computed
from three hand-picked high-value categories, not two.  Each of
inhibitor, km_value and turnover_number changes the built row while the
protein, synonym and reaction collections and the other two hand-picked
collections stay fixed, so no choice of two categories (together with
proteins, synonyms and reactions) determines the row. -/
theorem enzymeCounts_not_two_categories :
    (entryGet eInhEntry "protein" = entryGet eEmptyEntry "protein" ∧
     entryGet eInhEntry "synonyms" = entryGet eEmptyEntry "synonyms" ∧
     entryGet eInhEntry "reaction" = entryGet eEmptyEntry "reaction" ∧
     entryGet eInhEntry "km_value" = entryGet eEmptyEntry "km_value" ∧
     entryGet eInhEntry "turnover_number" =
       entryGet eEmptyEntry "turnover_number" ∧
     (buildEnzymeRow "1.1.1.1" eInhEntry).map EnzymeRow.inhibitorCount ≠
       (buildEnzymeRow "1.1.1.1" eEmptyEntry).map EnzymeRow.inhibitorCount) ∧
    (entryGet eKmEntry "protein" = entryGet eEmptyEntry "protein" ∧
     entryGet eKmEntry "synonyms" = entryGet eEmptyEntry "synonyms" ∧
     entryGet eKmEntry "reaction" = entryGet eEmptyEntry "reaction" ∧
     entryGet eKmEntry "turnover_number" =
       entryGet eEmptyEntry "turnover_number" ∧
     entryGet eKmEntry "inhibitor" = entryGet eEmptyEntry "inhibitor" ∧
     (buildEnzymeRow "1.1.1.1" eKmEntry).map EnzymeRow.kmCount ≠
       (buildEnzymeRow "1.1.1.1" eEmptyEntry).map EnzymeRow.kmCount) ∧
    (entryGet eTnEntry "protein" = entryGet eEmptyEntry "protein" ∧
     entryGet eTnEntry "synonyms" = entryGet eEmptyEntry "synonyms" ∧
     entryGet eTnEntry "reaction" = entryGet eEmptyEntry "reaction" ∧
     entryGet eTnEntry "km_value" = entryGet eEmptyEntry "km_value" ∧
     entryGet eTnEntry "inhibitor" = entryGet eEmptyEntry "inhibitor" ∧
     (buildEnzymeRow "1.1.1.1" eTnEntry).map EnzymeRow.turnoverCount ≠
       (buildEnzymeRow "1.1.1.1" eEmptyEntry).map EnzymeRow.turnoverCount) :=
  ⟨⟨rfl, rfl, rfl, rfl, rfl, by decide⟩,
   ⟨rfl, rfl, rfl, rfl, rfl, by decide⟩,
   ⟨rfl, rfl, rfl, rfl, rfl, by decide⟩⟩

/-! ### Rows written by the JSON pass, and its batch boundaries -/

/-- All enzyme rows carried by a state's bulk inserts, in write order. -/
def enzymesWritten (st : IngestState) : List EnzymeRow :=
  st.events.flatMap fun e =>
    match e with
    | WriteEvent.enzymes rows => rows
    | _ => []

/-- All protein rows carried by a state's bulk inserts, in write order. -/
def proteinsWritten (st : IngestState) : List ProteinRow :=
  st.events.flatMap fun e =>
    match e with
    | WriteEvent.proteins rows => rows
    | _ => []

/-- All fact rows carried by a state's bulk inserts, in write order. -/
def factsWritten (st : IngestState) : List FactRow :=
  st.events.flatMap fun e =>
    match e with
    | WriteEvent.facts rows => rows
    | _ => []

/-- The fact-table bulk inserts of a state: one entry per flush, each the
batch it inserted. -/
def factEvents (st : IngestState) : List (List FactRow) :=
  st.events.filterMap fun e =>
    match e with
    | WriteEvent.facts rows => some rows
    | _ => none

/-- The enzyme rows a state accounts for: already written, then buffered. -/
def enzSeq (st : IngestState) : List EnzymeRow :=
  enzymesWritten st ++ st.enzymeBuf

/-- The protein rows a state accounts for: written, then buffered. -/
def protSeq (st : IngestState) : List ProteinRow :=
  proteinsWritten st ++ st.proteinBuf

/-- The fact rows a state accounts for: written, then buffered. -/
def factSeq (st : IngestState) : List FactRow :=
  factsWritten st ++ st.factBuf

/-- A conditional enzyme flush moves rows from buffer to events without
touching the accounted sequences, the fact batches, or the other buffers. -/
theorem ifFlushEnzymes_obs (c : Prop) [Decidable c] (s : IngestState) :
    enzSeq (if c then flushEnzymes s else s) = enzSeq s ∧
    protSeq (if c then flushEnzymes s else s) = protSeq s ∧
    factSeq (if c then flushEnzymes s else s) = factSeq s ∧
    factEvents (if c then flushEnzymes s else s) = factEvents s ∧
    (if c then flushEnzymes s else s).proteinBuf = s.proteinBuf ∧
    (if c then flushEnzymes s else s).factBuf = s.factBuf := by
  split
  · unfold flushEnzymes
    by_cases hb : s.enzymeBuf.isEmpty <;>
      simp [hb, enzSeq, protSeq, factSeq, enzymesWritten, proteinsWritten,
        factsWritten, factEvents, List.flatMap_append, List.filterMap_append,
        List.isEmpty_iff.mp]
  · exact ⟨rfl, rfl, rfl, rfl, rfl, rfl⟩

/-- A conditional protein flush preserves the accounted sequences, the fact
batches, and the enzyme/fact buffers. -/
theorem ifFlushProteins_obs (c : Prop) [Decidable c] (s : IngestState) :
    enzSeq (if c then flushProteins s else s) = enzSeq s ∧
    protSeq (if c then flushProteins s else s) = protSeq s ∧
    factSeq (if c then flushProteins s else s) = factSeq s ∧
    factEvents (if c then flushProteins s else s) = factEvents s ∧
    (if c then flushProteins s else s).enzymeBuf = s.enzymeBuf ∧
    (if c then flushProteins s else s).factBuf = s.factBuf := by
  split
  · unfold flushProteins
    by_cases hb : s.proteinBuf.isEmpty <;>
      simp [hb, enzSeq, protSeq, factSeq, enzymesWritten, proteinsWritten,
        factsWritten, factEvents, List.flatMap_append, List.filterMap_append,
        List.isEmpty_iff.mp]
  · exact ⟨rfl, rfl, rfl, rfl, rfl, rfl⟩

/-- A conditional fact flush whose condition is the batch threshold on the
fact buffer: the accounted sequences are preserved, and the fact buffer and
batch list change exactly when the threshold is reached (a buffer at the
threshold is nonempty, so the flush is never the silent no-op). -/
theorem ifFlushFacts_obs (s : IngestState) :
    enzSeq (if batchSize ≤ s.factBuf.length then flushFacts s else s) = enzSeq s ∧
    protSeq (if batchSize ≤ s.factBuf.length then flushFacts s else s) = protSeq s ∧
    factSeq (if batchSize ≤ s.factBuf.length then flushFacts s else s) = factSeq s ∧
    (if batchSize ≤ s.factBuf.length then
      (if batchSize ≤ s.factBuf.length then flushFacts s else s).factBuf = [] ∧
      factEvents (if batchSize ≤ s.factBuf.length then flushFacts s else s) =
        factEvents s ++ [s.factBuf]
    else
      (if batchSize ≤ s.factBuf.length then flushFacts s else s).factBuf = s.factBuf ∧
      factEvents (if batchSize ≤ s.factBuf.length then flushFacts s else s) =
        factEvents s) := by
  by_cases hc : batchSize ≤ s.factBuf.length
  · have hb : s.factBuf.isEmpty = false := by
      cases hfb : s.factBuf with
      | nil => rw [hfb] at hc; simp [batchSize] at hc
      | cons a l => rfl
    simp only [if_pos hc]
    unfold flushFacts
    simp [hb, enzSeq, protSeq, factSeq, enzymesWritten, proteinsWritten,
      factsWritten, factEvents, List.flatMap_append, List.filterMap_append]
  · simp [hc]

/-- One iteration of the JSON-pass loop appends the entry's rows to the
accounted sequences, and its only effect on the fact batches is one flush
of the extended fact buffer exactly when that buffer reaches the batch
threshold. -/
theorem stepEntryOk_spec (st : IngestState) (enz : EnzymeRow)
    (prots : List ProteinRow) (facts : List FactRow) :
    enzSeq (stepEntryOk st enz prots facts) = enzSeq st ++ [enz] ∧
    protSeq (stepEntryOk st enz prots facts) = protSeq st ++ prots ∧
    factSeq (stepEntryOk st enz prots facts) = factSeq st ++ facts ∧
    (if batchSize ≤ st.factBuf.length + facts.length then
      (stepEntryOk st enz prots facts).factBuf = [] ∧
      factEvents (stepEntryOk st enz prots facts) =
        factEvents st ++ [st.factBuf ++ facts]
    else
      (stepEntryOk st enz prots facts).factBuf = st.factBuf ++ facts ∧
      factEvents (stepEntryOk st enz prots facts) = factEvents st) := by
  have hA1 : enzSeq ⟨st.enzymeBuf ++ [enz], st.proteinBuf ++ prots,
      st.factBuf ++ facts, st.textBuf, st.events⟩ = enzSeq st ++ [enz] := by
    simp [enzSeq, enzymesWritten]
  have hA2 : protSeq ⟨st.enzymeBuf ++ [enz], st.proteinBuf ++ prots,
      st.factBuf ++ facts, st.textBuf, st.events⟩ = protSeq st ++ prots := by
    simp [protSeq, proteinsWritten]
  have hA3 : factSeq ⟨st.enzymeBuf ++ [enz], st.proteinBuf ++ prots,
      st.factBuf ++ facts, st.textBuf, st.events⟩ = factSeq st ++ facts := by
    simp [factSeq, factsWritten]
  have hA4 : factEvents ⟨st.enzymeBuf ++ [enz], st.proteinBuf ++ prots,
      st.factBuf ++ facts, st.textBuf, st.events⟩ = factEvents st := rfl
  have hA5 : (⟨st.enzymeBuf ++ [enz], st.proteinBuf ++ prots,
      st.factBuf ++ facts, st.textBuf, st.events⟩ : IngestState).factBuf =
      st.factBuf ++ facts := rfl
  unfold stepEntryOk
  dsimp only
  generalize hA : (⟨st.enzymeBuf ++ [enz], st.proteinBuf ++ prots,
      st.factBuf ++ facts, st.textBuf, st.events⟩ : IngestState) = A
    at hA1 hA2 hA3 hA4 hA5 ⊢
  obtain ⟨e1, p1, f1, fe1, pb1, fb1⟩ :=
    ifFlushEnzymes_obs (batchSize ≤ (st.enzymeBuf ++ [enz]).length) A
  generalize hB : (if batchSize ≤ (st.enzymeBuf ++ [enz]).length
      then flushEnzymes A else A) = B at e1 p1 f1 fe1 pb1 fb1 ⊢
  obtain ⟨e2, p2, f2, fe2, eb2, fb2⟩ :=
    ifFlushProteins_obs (batchSize ≤ B.proteinBuf.length) B
  generalize hC : (if batchSize ≤ B.proteinBuf.length
      then flushProteins B else B) = C at e2 p2 f2 fe2 eb2 fb2 ⊢
  have hCfb : C.factBuf = st.factBuf ++ facts := by rw [fb2, fb1, hA5]
  obtain ⟨e3, p3, f3, h3⟩ := ifFlushFacts_obs C
  generalize hD : (if batchSize ≤ C.factBuf.length then flushFacts C else C) = D
    at e3 p3 f3 h3 ⊢
  rw [hCfb, List.length_append] at h3
  rw [fe2, fe1, hA4] at h3
  refine ⟨?_, ?_, ?_, h3⟩
  · rw [e3, e2, e1, hA1]
  · rw [p3, p2, p1, hA2]
  · rw [f3, f2, f1, hA3]

/-- An unconditional fact flush preserves the accounted sequences and the
other buffers, empties the fact buffer, and appends one batch to the fact
batch list exactly when the buffer was nonempty. -/
theorem flushFacts_obs (s : IngestState) :
    enzSeq (flushFacts s) = enzSeq s ∧
    protSeq (flushFacts s) = protSeq s ∧
    factSeq (flushFacts s) = factSeq s ∧
    (flushFacts s).factBuf = [] ∧
    (flushFacts s).enzymeBuf = s.enzymeBuf ∧
    (flushFacts s).proteinBuf = s.proteinBuf ∧
    factEvents (flushFacts s) =
      factEvents s ++ (if s.factBuf.isEmpty then [] else [s.factBuf]) := by
  unfold flushFacts
  by_cases hb : s.factBuf.isEmpty <;>
    simp [hb, enzSeq, protSeq, factSeq, enzymesWritten, proteinsWritten,
      factsWritten, factEvents, List.flatMap_append, List.filterMap_append,
      List.isEmpty_iff.mp]

/-- A successful JSON-pass loop extends the accounted row sequences with
exactly the rows produced per entry, in entry order. -/
theorem runEntries_seq (entries : List (String × Entry)) :
    ∀ st₀ st : IngestState, runEntries st₀ entries = (st, none) →
    ∃ per : List (EnzymeRow × List ProteinRow × List FactRow),
      List.Forall₂ (fun p t => processEntry p.1 p.2 = Except.ok t) entries per ∧
      enzSeq st = enzSeq st₀ ++ per.map (fun t => t.1) ∧
      protSeq st = protSeq st₀ ++ per.flatMap (fun t => t.2.1) ∧
      factSeq st = factSeq st₀ ++ per.flatMap (fun t => t.2.2) := by
  induction entries with
  | nil =>
    intro st₀ st h
    simp only [runEntries, Prod.mk.injEq] at h
    obtain ⟨rfl, -⟩ := h
    exact ⟨[], List.Forall₂.nil, by simp, by simp, by simp⟩
  | cons p rest ih =>
    intro st₀ st h
    obtain ⟨ec, e⟩ := p
    simp only [runEntries] at h
    split at h
    next err heq => simp at h
    next enz prots facts heq =>
      obtain ⟨per, hf, he, hp, hfct⟩ := ih _ _ h
      obtain ⟨se, sp, sf, -⟩ := stepEntryOk_spec st₀ enz prots facts
      exact ⟨(enz, prots, facts) :: per, List.Forall₂.cons heq hf,
        by rw [he, se]; simp, by rw [hp, sp]; simp, by rw [hfct, sf]; simp⟩

/-- Splitting a successful `processEntry` into its three components. -/
theorem processEntry_ok_parts {ec : String} {e : Entry}
    {t : EnzymeRow × List ProteinRow × List FactRow}
    (h : processEntry ec e = Except.ok t) :
    buildEnzymeRow ec e = Except.ok t.1 ∧
    proteinRowsOf ec e = Except.ok t.2.1 ∧
    t.2.2 = factRowsOf ec e := by
  unfold processEntry at h
  simp only [exceptBind_ok] at h
  obtain ⟨enz, henz, h⟩ := h
  obtain ⟨prots, hprots, h⟩ := h
  simp only [pure, Except.pure, Except.ok.injEq] at h
  subst h
  exact ⟨henz, hprots, rfl⟩

/-- The enzyme row built for an entry carries that entry's EC number. -/
theorem buildEnzymeRow_ec {ec : String} {e : Entry} {row : EnzymeRow}
    (h : buildEnzymeRow ec e = Except.ok row) : row.ec = ec := by
  unfold buildEnzymeRow at h
  dsimp only at h
  split at h
  · simp only [exceptBind_ok] at h
    obtain ⟨first, hfirst, h⟩ := h
    cases first <;>
      simp only [exceptBind_ok, pure, Except.pure, Except.ok.injEq,
        exists_eq_left'] at h <;>
      obtain ⟨pc, hpc, sc, hsc, rc, hrc, kc, hkc, tc, htc, ic, hic, hrow⟩ := h <;>
      rw [← hrow]
  · simp only [exceptBind_ok, pure, Except.pure, Except.ok.injEq,
      exists_eq_left'] at h
    obtain ⟨pc, hpc, sc, hsc, rc, hrc, kc, hkc, tc, htc, ic, hic, hrow⟩ := h
    rw [← hrow]

/-- Every element of a successful `mapM` is the image of a list element. -/
theorem mapM_except_mem {α β : Type} {f : α → Except PyErr β} :
    ∀ {l : List α} {out : List β}, l.mapM f = Except.ok out →
      ∀ b ∈ out, ∃ a ∈ l, f a = Except.ok b := by
  intro l
  induction l with
  | nil =>
    intro out h b hb
    simp only [List.mapM_nil, pure, Except.pure, Except.ok.injEq] at h
    subst h
    simp at hb
  | cons a l ih =>
    intro out h b hb
    rw [List.mapM_cons] at h
    simp only [exceptBind_ok] at h
    obtain ⟨b0, hb0, h⟩ := h
    obtain ⟨bs, hbs, h⟩ := h
    simp only [pure, Except.pure, Except.ok.injEq] at h
    subst h
    rcases List.mem_cons.mp hb with rfl | hmem
    · exact ⟨a, List.mem_cons_self a l, hb0⟩
    · obtain ⟨a1, ha1, hfa1⟩ := ih hbs b hmem
      exact ⟨a1, List.mem_cons_of_mem a ha1, hfa1⟩

/-- Every protein row built for an entry carries that entry's EC number. -/
theorem proteinRowsOf_ec {ec : String} {e : Entry} {rows : List ProteinRow}
    (h : proteinRowsOf ec e = Except.ok rows) : ∀ r ∈ rows, r.ec = ec := by
  intro r hr
  unfold proteinRowsOf at h
  split at h
  next kvs heq =>
    obtain ⟨kv, hkv, hfkv⟩ := mapM_except_mem h r hr
    cases hkv2 : kv.2 <;> rw [hkv2] at hfkv <;>
      first
        | exact Except.noConfusion hfkv
        | (simp only [Except.ok.injEq] at hfkv; subst hfkv; rfl)
  next heq => simp at h

/-- `_build_fact_row` copies the EC number into the row. -/
theorem buildFactRow_ec (ec category : String) (payload : Entry) :
    (buildFactRow ec category payload).ec = ec := rfl

/-- Every fact row a category pair yields carries the entry's EC number. -/
theorem factRowsOfItem_ec (ec key : String) (items : PyVal) :
    ∀ r ∈ factRowsOfItem ec key items, r.ec = ec := by
  intro r hr
  unfold factRowsOfItem at hr
  split at hr
  · simp at hr
  split at hr
  · simp at hr
  split at hr <;>
    first
      | exact absurd hr (List.not_mem_nil r)
      | (simp only [List.mem_singleton] at hr; subst hr; rfl)
      | (simp only [List.mem_map] at hr; obtain ⟨item, -, rfl⟩ := hr;
         cases item <;> rfl)

/-- Every fact row built for an entry carries that entry's EC number. -/
theorem factRowsOf_ec (ec : String) (e : Entry) :
    ∀ r ∈ factRowsOf ec e, r.ec = ec := by
  intro r hr
  unfold factRowsOf at hr
  rw [List.mem_flatMap] at hr
  obtain ⟨kv, hkv, hr⟩ := hr
  exact factRowsOfItem_ec ec kv.1 kv.2 r hr

/-- An unconditional enzyme flush preserves the accounted sequences, the
fact batches and the other buffers, and empties the enzyme buffer. -/
theorem flushEnzymes_obs (s : IngestState) :
    enzSeq (flushEnzymes s) = enzSeq s ∧
    protSeq (flushEnzymes s) = protSeq s ∧
    factSeq (flushEnzymes s) = factSeq s ∧
    factEvents (flushEnzymes s) = factEvents s ∧
    (flushEnzymes s).proteinBuf = s.proteinBuf ∧
    (flushEnzymes s).factBuf = s.factBuf ∧
    (flushEnzymes s).enzymeBuf = [] := by
  unfold flushEnzymes
  by_cases hb : s.enzymeBuf.isEmpty <;>
    simp [hb, enzSeq, protSeq, factSeq, enzymesWritten, proteinsWritten,
      factsWritten, factEvents, List.flatMap_append, List.filterMap_append,
      List.isEmpty_iff.mp]

/-- An unconditional protein flush preserves the accounted sequences, the
fact batches and the other buffers, and empties the protein buffer. -/
theorem flushProteins_obs (s : IngestState) :
    enzSeq (flushProteins s) = enzSeq s ∧
    protSeq (flushProteins s) = protSeq s ∧
    factSeq (flushProteins s) = factSeq s ∧
    factEvents (flushProteins s) = factEvents s ∧
    (flushProteins s).enzymeBuf = s.enzymeBuf ∧
    (flushProteins s).factBuf = s.factBuf ∧
    (flushProteins s).proteinBuf = [] := by
  unfold flushProteins
  by_cases hb : s.proteinBuf.isEmpty <;>
    simp [hb, enzSeq, protSeq, factSeq, enzymesWritten, proteinsWritten,
      factsWritten, factEvents, List.flatMap_append, List.filterMap_append,
      List.isEmpty_iff.mp]

/-- A `Forall₂` relation covers every element of its right list. -/
theorem forall₂_mem_right {α β : Type} {P : α → β → Prop} :
    ∀ {l₁ : List α} {l₂ : List β}, List.Forall₂ P l₁ l₂ →
      ∀ b ∈ l₂, ∃ a ∈ l₁, P a b := by
  intro l₁ l₂ h
  induction h with
  | nil => intro b hb; simp at hb
  | cons hab hrest ih =>
    intro b hb
    rcases List.mem_cons.mp hb with rfl | hmem
    · exact ⟨_, List.mem_cons_self _ _, hab⟩
    · obtain ⟨a, ha, hPa⟩ := ih b hmem
      exact ⟨a, List.mem_cons_of_mem _ ha, hPa⟩

/-- C1 (amended): on a successful JSON pass, the enzyme, protein and fact
rows written to the store are exactly those produced for the input entries,
in entry order within each table, and every written row carries an EC
number of the input document.  (The claimed write order — each enzyme row
before any fact row of the same entry — is refuted separately: the fact
buffer can flush before the entry's enzyme row is written.) -/
theorem jsonPass_rows_belong (entries : List (String × Entry))
    (st : IngestState) (h : runJson entries = (st, none)) :
    ∃ per : List (EnzymeRow × List ProteinRow × List FactRow),
      List.Forall₂ (fun p t => processEntry p.1 p.2 = Except.ok t) entries per ∧
      enzymesWritten st = per.map (fun t => t.1) ∧
      proteinsWritten st = per.flatMap (fun t => t.2.1) ∧
      factsWritten st = per.flatMap (fun t => t.2.2) ∧
      (∀ r ∈ enzymesWritten st, r.ec ∈ entries.map Prod.fst) ∧
      (∀ r ∈ proteinsWritten st, r.ec ∈ entries.map Prod.fst) ∧
      (∀ r ∈ factsWritten st, r.ec ∈ entries.map Prod.fst) := by
  unfold runJson at h
  split at h
  next heq => simp at h
  next st1 heq =>
    simp only [Prod.mk.injEq, and_true] at h
    subst h
    obtain ⟨per, hf, he, hp, hfc⟩ := runEntries_seq entries initState st1 heq
    obtain ⟨e1, p1, f1, fe1, pb1, fb1, eb1⟩ := flushEnzymes_obs st1
    obtain ⟨e2, p2, f2, fe2, eb2, fb2, pb2⟩ := flushProteins_obs (flushEnzymes st1)
    obtain ⟨e3, p3, f3, fb3, eb3, pb3, fe3⟩ :=
      flushFacts_obs (flushProteins (flushEnzymes st1))
    have hbufE : (flushFacts (flushProteins (flushEnzymes st1))).enzymeBuf = [] := by
      rw [eb3, eb2, eb1]
    have hbufP : (flushFacts (flushProteins (flushEnzymes st1))).proteinBuf = [] := by
      rw [pb3, pb2]
    have hEW : enzymesWritten (flushFacts (flushProteins (flushEnzymes st1))) =
        per.map (fun t => t.1) := by
      have h0 : enzSeq (flushFacts (flushProteins (flushEnzymes st1))) =
          per.map (fun t => t.1) := by
        rw [e3, e2, e1, he]
        simp [enzSeq, enzymesWritten, initState]
      unfold enzSeq at h0
      rw [hbufE, List.append_nil] at h0
      exact h0
    have hPW : proteinsWritten (flushFacts (flushProteins (flushEnzymes st1))) =
        per.flatMap (fun t => t.2.1) := by
      have h0 : protSeq (flushFacts (flushProteins (flushEnzymes st1))) =
          per.flatMap (fun t => t.2.1) := by
        rw [p3, p2, p1, hp]
        simp [protSeq, proteinsWritten, initState]
      unfold protSeq at h0
      rw [hbufP, List.append_nil] at h0
      exact h0
    have hFW : factsWritten (flushFacts (flushProteins (flushEnzymes st1))) =
        per.flatMap (fun t => t.2.2) := by
      have h0 : factSeq (flushFacts (flushProteins (flushEnzymes st1))) =
          per.flatMap (fun t => t.2.2) := by
        rw [f3, f2, f1, hfc]
        simp [factSeq, factsWritten, initState]
      unfold factSeq at h0
      rw [fb3, List.append_nil] at h0
      exact h0
    refine ⟨per, hf, hEW, hPW, hFW, ?_, ?_, ?_⟩
    · intro r hrow
      rw [hEW, List.mem_map] at hrow
      obtain ⟨t, ht, rfl⟩ := hrow
      obtain ⟨p, hpmem, hpe⟩ := forall₂_mem_right hf t ht
      obtain ⟨hbe, -, -⟩ := processEntry_ok_parts hpe
      rw [buildEnzymeRow_ec hbe]
      exact List.mem_map_of_mem Prod.fst hpmem
    · intro r hrow
      rw [hPW, List.mem_flatMap] at hrow
      obtain ⟨t, ht, hrt⟩ := hrow
      obtain ⟨p, hpmem, hpe⟩ := forall₂_mem_right hf t ht
      obtain ⟨-, hpr, -⟩ := processEntry_ok_parts hpe
      rw [proteinRowsOf_ec hpr r hrt]
      exact List.mem_map_of_mem Prod.fst hpmem
    · intro r hrow
      rw [hFW, List.mem_flatMap] at hrow
      obtain ⟨t, ht, hrt⟩ := hrow
      obtain ⟨p, hpmem, hpe⟩ := forall₂_mem_right hf t ht
      obtain ⟨-, -, hfr⟩ := processEntry_ok_parts hpe
      rw [hfr] at hrt
      rw [factRowsOf_ec p.1 p.2 r hrt]
      exact List.mem_map_of_mem Prod.fst hpmem

/-- An entry whose `km_value` list holds `n` copies of the scalar `"1"`. -/
def bigKmEntry (n : Nat) : Entry :=
  [("km_value", PyVal.list (List.replicate n (PyVal.str "1")))]

/-- The fact row each value of such an entry yields. -/
def kmFactRow (ec : String) : FactRow :=
  buildFactRow ec "km_value" [("value", PyVal.str "1")]

/-- The enzyme row such an entry yields. -/
def bigKmRow (ec : String) (n : Nat) : EnzymeRow :=
  ⟨ec, PyVal.none, PyVal.none, PyVal.none, PyVal.none, 0, 0, 0, n, 0, 0⟩

/-- Fact rows of the big Km entry: one per value. -/
theorem factRowsOf_bigKm (ec : String) (n : Nat) :
    factRowsOf ec (bigKmEntry n) = List.replicate n (kmFactRow ec) := by
  cases n with
  | zero => rfl
  | succ m =>
    unfold factRowsOf bigKmEntry factRowsOfItem
    simp [baseFields, specialKeys, PyVal.truthy, List.replicate_succ,
      List.map_replicate, pyStr, kmFactRow]

/-- Enzyme row of the big Km entry: only the Km count is nonzero. -/
theorem buildEnzymeRow_bigKm (ec : String) (n : Nat) :
    buildEnzymeRow ec (bigKmEntry n) = Except.ok (bigKmRow ec n) := by
  cases n with
  | zero => rfl
  | succ m =>
    unfold buildEnzymeRow bigKmEntry bigKmRow
    simp [entryGet, List.lookup, pyOr, PyVal.truthy, pyLen, List.replicate_succ,
      List.length_replicate, exceptBind_ok, pure, Except.pure]

/-- The big Km entry has no protein map, so no protein rows. -/
theorem proteinRowsOf_bigKm (ec : String) (n : Nat) :
    proteinRowsOf ec (bigKmEntry n) = Except.ok [] := rfl

/-- What `ingest` produces for the big Km entry. -/
theorem processEntry_bigKm (ec : String) (n : Nat) :
    processEntry ec (bigKmEntry n) =
      Except.ok (bigKmRow ec n, [], List.replicate n (kmFactRow ec)) := by
  unfold processEntry
  rw [buildEnzymeRow_bigKm, proteinRowsOf_bigKm, factRowsOf_bigKm]
  rfl

/-- From the empty state, one big Km entry at or above the batch threshold
flushes its fact rows at once, before any enzyme row is written. -/
theorem stepEntryOk_bigKm (ec : String) (n : Nat) (hn : batchSize ≤ n) :
    stepEntryOk initState (bigKmRow ec n) [] (List.replicate n (kmFactRow ec)) =
      ⟨[bigKmRow ec n], [], [], [],
        [WriteEvent.facts (List.replicate n (kmFactRow ec))]⟩ := by
  have hn0 : n ≠ 0 := by
    intro h0
    rw [h0] at hn
    simp [batchSize] at hn
  have hn5 : 500 ≤ n := by simpa [batchSize] using hn
  have hne : (List.replicate n (kmFactRow ec)).isEmpty = false := by
    cases hc : List.replicate n (kmFactRow ec) with
    | nil => exact absurd (by simpa using congrArg List.length hc) hn0
    | cons a l => rfl
  unfold stepEntryOk flushEnzymes flushProteins flushFacts initState
  dsimp only
  simp [batchSize, hn5, hne]

/-- The whole JSON pass on one big Km entry at or above the threshold:
the fact batch is written first, the enzyme row only at the final flush. -/
theorem runJson_bigKm (ec : String) (n : Nat) (hn : batchSize ≤ n) :
    runJson [(ec, bigKmEntry n)] =
      (⟨[], [], [], [],
        [WriteEvent.facts (List.replicate n (kmFactRow ec)),
         WriteEvent.enzymes [bigKmRow ec n]]⟩, none) := by
  unfold runJson
  simp only [runEntries, processEntry_bigKm]
  rw [stepEntryOk_bigKm ec n hn]
  rfl

/-- C1 is FALSE as stated: an entry whose facts alone reach the batch
threshold has its fact batch flushed inside the loop, before the entry's
enzyme row (still buffered) is written — here the successful pass performs
a facts insert and then an enzymes insert, the 500 fact rows and the one
enzyme row all carrying the same EC number. -/
theorem enzymeRow_not_before_facts :
    (runJson [("1.1.1.1", bigKmEntry batchSize)]).2 = none ∧
    ((runJson [("1.1.1.1", bigKmEntry batchSize)]).1.events.map
      WriteEvent.kind) = [TableKind.facts, TableKind.enzymes] ∧
    (factsWritten (runJson [("1.1.1.1", bigKmEntry batchSize)]).1).map
      FactRow.ec = List.replicate batchSize "1.1.1.1" ∧
    (enzymesWritten (runJson [("1.1.1.1", bigKmEntry batchSize)]).1).map
      EnzymeRow.ec = ["1.1.1.1"] := by
  rw [runJson_bigKm "1.1.1.1" batchSize (le_refl batchSize)]
  refine ⟨rfl, rfl, ?_, rfl⟩
  simp [factsWritten, List.map_replicate, kmFactRow, buildFactRow_ec]

/-- While the accumulated fact rows stay below the batch threshold, the
loop performs no fact flush and leaves everything in the buffer. -/
theorem runEntries_facts_low (entries : List (String × Entry)) :
    ∀ st₀ st : IngestState, runEntries st₀ entries = (st, none) →
    st₀.factBuf.length +
      (entries.flatMap fun p => factRowsOf p.1 p.2).length < batchSize →
    factEvents st = factEvents st₀ ∧
    st.factBuf = st₀.factBuf ++ entries.flatMap fun p => factRowsOf p.1 p.2 := by
  induction entries with
  | nil =>
    intro st₀ st h hlt
    simp only [runEntries, Prod.mk.injEq] at h
    obtain ⟨rfl, -⟩ := h
    simp
  | cons p rest ih =>
    intro st₀ st h hlt
    obtain ⟨ec, e⟩ := p
    simp only [runEntries] at h
    split at h
    next err heq => simp at h
    next enz prots facts heq =>
      have hfacts : facts = factRowsOf ec e := (processEntry_ok_parts heq).2.2
      subst hfacts
      simp only [List.flatMap_cons, List.length_append] at hlt ⊢
      obtain ⟨-, -, -, h4⟩ := stepEntryOk_spec st₀ enz prots (factRowsOf ec e)
      rw [if_neg (by omega)] at h4
      obtain ⟨hbuf, hev⟩ := h4
      obtain ⟨ihev, ihbuf⟩ := ih (stepEntryOk st₀ enz prots (factRowsOf ec e)) st h
        (by rw [hbuf]; simp only [List.length_append]; omega)
      refine ⟨by rw [ihev, hev], ?_⟩
      rw [ihbuf, hbuf, List.append_assoc]

/-- When the accumulated fact rows reach the batch size exactly, the loop
performs exactly one fact flush, of all of them, and empties the buffer. -/
theorem runEntries_facts_exact (entries : List (String × Entry)) :
    ∀ st₀ st : IngestState, runEntries st₀ entries = (st, none) →
    st₀.factBuf.length < batchSize →
    st₀.factBuf.length +
      (entries.flatMap fun p => factRowsOf p.1 p.2).length = batchSize →
    factEvents st = factEvents st₀ ++
      [st₀.factBuf ++ entries.flatMap fun p => factRowsOf p.1 p.2] ∧
    st.factBuf = [] := by
  induction entries with
  | nil =>
    intro st₀ st h hlt heq
    exfalso
    simp only [List.flatMap_nil, List.length_nil] at heq
    omega
  | cons p rest ih =>
    intro st₀ st h hlt heq
    obtain ⟨ec, e⟩ := p
    simp only [runEntries] at h
    split at h
    next err heqq => simp at h
    next enz prots facts heqq =>
      have hfacts : facts = factRowsOf ec e := (processEntry_ok_parts heqq).2.2
      subst hfacts
      simp only [List.flatMap_cons, List.length_append] at heq ⊢
      obtain ⟨-, -, -, h4⟩ := stepEntryOk_spec st₀ enz prots (factRowsOf ec e)
      by_cases hc : batchSize ≤ st₀.factBuf.length + (factRowsOf ec e).length
      · rw [if_pos hc] at h4
        obtain ⟨hbuf, hev⟩ := h4
        have hrest0 : (rest.flatMap fun p => factRowsOf p.1 p.2).length = 0 := by
          omega
        have hrestnil : (rest.flatMap fun p => factRowsOf p.1 p.2) = [] :=
          List.length_eq_zero.mp hrest0
        obtain ⟨ihev, ihbuf⟩ := runEntries_facts_low rest _ st h
          (by rw [hbuf]; simp only [List.length_nil]; omega)
        refine ⟨?_, ?_⟩
        · rw [ihev, hev, hrestnil, List.append_nil]
        · rw [ihbuf, hbuf, hrestnil]
          rfl
      · rw [if_neg hc] at h4
        obtain ⟨hbuf, hev⟩ := h4
        obtain ⟨ihev, ihbuf⟩ := ih (stepEntryOk st₀ enz prots (factRowsOf ec e)) st h
          (by rw [hbuf]; simp only [List.length_append]; omega)
          (by rw [hbuf]; simp only [List.length_append]; omega)
        refine ⟨?_, ihbuf⟩
        rw [ihev, hev, hbuf, List.append_assoc]

/-- When the accumulated fact rows exceed the batch size by one and no
single entry contributes more than one fact row, the loop performs exactly
one flush, of a full batch, and leaves exactly one row buffered. -/
theorem runEntries_facts_over (entries : List (String × Entry)) :
    ∀ st₀ st : IngestState, runEntries st₀ entries = (st, none) →
    st₀.factBuf.length < batchSize →
    (∀ p ∈ entries, (factRowsOf p.1 p.2).length ≤ 1) →
    st₀.factBuf.length +
      (entries.flatMap fun p => factRowsOf p.1 p.2).length = batchSize + 1 →
    ∃ chunk, factEvents st = factEvents st₀ ++ [chunk] ∧
      chunk.length = batchSize ∧ st.factBuf.length = 1 := by
  induction entries with
  | nil =>
    intro st₀ st h hlt hone heq
    exfalso
    simp only [List.flatMap_nil, List.length_nil] at heq
    omega
  | cons p rest ih =>
    intro st₀ st h hlt hone heq
    obtain ⟨ec, e⟩ := p
    have hone1 : (factRowsOf ec e).length ≤ 1 :=
      hone (ec, e) (List.mem_cons_self _ _)
    have honer : ∀ p ∈ rest, (factRowsOf p.1 p.2).length ≤ 1 :=
      fun q hq => hone q (List.mem_cons_of_mem _ hq)
    simp only [runEntries] at h
    split at h
    next err heqq => simp at h
    next enz prots facts heqq =>
      have hfacts : facts = factRowsOf ec e := (processEntry_ok_parts heqq).2.2
      subst hfacts
      simp only [List.flatMap_cons, List.length_append] at heq
      obtain ⟨-, -, -, h4⟩ := stepEntryOk_spec st₀ enz prots (factRowsOf ec e)
      by_cases hc : batchSize ≤ st₀.factBuf.length + (factRowsOf ec e).length
      · rw [if_pos hc] at h4
        obtain ⟨hbuf, hev⟩ := h4
        have hrest1 : (rest.flatMap fun p => factRowsOf p.1 p.2).length = 1 := by
          omega
        obtain ⟨ihev, ihbuf⟩ := runEntries_facts_low rest _ st h
          (by rw [hbuf]; simp only [List.length_nil, hrest1, batchSize]; omega)
        refine ⟨st₀.factBuf ++ factRowsOf ec e, ?_, ?_, ?_⟩
        · rw [ihev, hev]
        · simp only [List.length_append]
          omega
        · rw [ihbuf, hbuf, List.nil_append, hrest1]
      · rw [if_neg hc] at h4
        obtain ⟨hbuf, hev⟩ := h4
        obtain ⟨chunk, ihev, ihlen, ihbuf⟩ :=
          ih (stepEntryOk st₀ enz prots (factRowsOf ec e)) st h
            (by rw [hbuf]; simp only [List.length_append]; omega)
            honer
            (by rw [hbuf]; simp only [List.length_append]; omega)
        exact ⟨chunk, by rw [ihev, hev], ihlen, ihbuf⟩

/-- C3 (amended): on a successful JSON pass, if the entries contribute
exactly `batchSize` fact rows in total, exactly one fact flush occurs and
it carries all of them, with nothing left buffered at the end; if they
contribute `batchSize + 1` fact rows AND no single entry contributes more
than one (the regime the claim describes — the flush check runs once per
entry, after appending the whole entry), the pass performs one full-batch
flush and then a single-row flush at end-of-stream. -/
theorem factBatch_boundary (entries : List (String × Entry))
    (st : IngestState) (h : runJson entries = (st, none)) :
    ((entries.flatMap fun p => factRowsOf p.1 p.2).length = batchSize →
      factEvents st = [entries.flatMap fun p => factRowsOf p.1 p.2] ∧
      st.factBuf = []) ∧
    ((∀ p ∈ entries, (factRowsOf p.1 p.2).length ≤ 1) →
      (entries.flatMap fun p => factRowsOf p.1 p.2).length = batchSize + 1 →
      (factEvents st).map List.length = [batchSize, 1] ∧ st.factBuf = []) := by
  unfold runJson at h
  split at h
  next heq => simp at h
  next st1 heq =>
    simp only [Prod.mk.injEq, and_true] at h
    subst h
    obtain ⟨-, -, -, fe1, -, fb1, -⟩ := flushEnzymes_obs st1
    obtain ⟨-, -, -, fe2, -, fb2, -⟩ := flushProteins_obs (flushEnzymes st1)
    obtain ⟨-, -, -, fb3, -, -, fe3⟩ :=
      flushFacts_obs (flushProteins (flushEnzymes st1))
    have hfb12 : (flushProteins (flushEnzymes st1)).factBuf = st1.factBuf := by
      rw [fb2, fb1]
    constructor
    · intro htot
      obtain ⟨hev, hbuf⟩ := runEntries_facts_exact entries initState st1 heq
        (by simp [initState, batchSize])
        (by simpa [initState] using htot)
      refine ⟨?_, ?_⟩
      · have hempty : (flushProteins (flushEnzymes st1)).factBuf.isEmpty = true := by
          rw [hfb12, hbuf]
          rfl
        rw [fe3, hempty, if_pos rfl, List.append_nil, fe2, fe1, hev]
        simp [initState, factEvents]
      · rw [fb3]
    · intro hone htot
      obtain ⟨chunk, hev, hlen, hbuf1⟩ := runEntries_facts_over entries
        initState st1 heq (by simp [initState, batchSize]) hone
        (by simpa [initState] using htot)
      have hne : (flushProteins (flushEnzymes st1)).factBuf.isEmpty = false := by
        rw [hfb12]
        cases hX : st1.factBuf with
        | nil => rw [hX] at hbuf1; simp at hbuf1
        | cons a l => rfl
      refine ⟨?_, ?_⟩
      · rw [fe3, hne, if_neg (by simp), fe2, fe1, hev, hfb12]
        simp only [initState, factEvents, List.filterMap_nil, List.nil_append,
          List.map_append, List.map_cons, List.map_nil, hlen]
        rw [hbuf1]
        rfl
      · rw [fb3]

/-- C3 is FALSE as stated for `N + 1` facts: a single entry carrying
`batchSize + 1` fact rows is appended to the buffer whole, and the one
threshold check after it flushes all `batchSize + 1` rows in ONE bulk
insert — there is no full-batch flush followed by a single-row flush. -/
theorem factBatch_overrun_single_flush :
    (([("1.1.1.1", bigKmEntry (batchSize + 1))].flatMap
        fun p => factRowsOf p.1 p.2).length = batchSize + 1 ∧
      (runJson [("1.1.1.1", bigKmEntry (batchSize + 1))]).2 = none) ∧
    (factEvents (runJson [("1.1.1.1", bigKmEntry (batchSize + 1))]).1).map
      List.length = [batchSize + 1] ∧
    (runJson [("1.1.1.1", bigKmEntry (batchSize + 1))]).1.factBuf = [] := by
  rw [runJson_bigKm "1.1.1.1" (batchSize + 1) (Nat.le_succ batchSize)]
  refine ⟨⟨?_, rfl⟩, ?_, rfl⟩
  · simp [factRowsOf_bigKm, List.length_replicate]
  · simp [factEvents, List.length_replicate]

/-- A loop over entries that all process successfully raises nothing. -/
theorem runEntries_snd_none (entries : List (String × Entry)) :
    ∀ st₀ : IngestState,
    (∀ p ∈ entries, ∃ t, processEntry p.1 p.2 = Except.ok t) →
    (runEntries st₀ entries).2 = none := by
  induction entries with
  | nil => intro st₀ hok; rfl
  | cons p rest ih =>
    intro st₀ hok
    obtain ⟨ec, e⟩ := p
    obtain ⟨t, ht⟩ := hok (ec, e) (List.mem_cons_self _ _)
    obtain ⟨enz, prots, facts⟩ := t
    simp only [runEntries]
    rw [ht]
    exact ih (stepEntryOk st₀ enz prots facts) fun q hq =>
      hok q (List.mem_cons_of_mem _ hq)

/-- A JSON pass over entries that all process successfully succeeds. -/
theorem runJson_snd_none (entries : List (String × Entry))
    (hok : ∀ p ∈ entries, ∃ t, processEntry p.1 p.2 = Except.ok t) :
    runJson entries = ((runJson entries).1, none) := by
  have h2 := runEntries_snd_none entries initState hok
  unfold runJson
  cases hre : runEntries initState entries with
  | mk st1 o =>
    rw [hre] at h2
    have h3 : o = none := h2
    subst h3
    rfl

/-- An entry with a single scalar inhibitor value: exactly one fact row. -/
def oneInhEntry : Entry := [("inhibitor", PyVal.list [PyVal.str "x"])]

/-- What `ingest` produces for the one-inhibitor entry. -/
theorem processEntry_oneInh (ec : String) :
    processEntry ec oneInhEntry =
      Except.ok (⟨ec, PyVal.none, PyVal.none, PyVal.none, PyVal.none,
        0, 0, 0, 0, 0, 1⟩, [],
        [buildFactRow ec "inhibitor" [("value", PyVal.str "x")]]) := rfl

/-- Length of a `flatMap` over a constant list. -/
theorem length_flatMap_replicate {α β : Type} (n : Nat) (a : α)
    (f : α → List β) :
    ((List.replicate n a).flatMap f).length = n * (f a).length := by
  induction n with
  | zero => simp
  | succ m ih =>
    simp [List.replicate_succ, List.flatMap_cons, ih, Nat.succ_mul,
      Nat.add_comm]

/-- Witness for C3 amended, both regimes: a single entry carrying exactly
`batchSize` fact rows gives one flush of the whole batch with an empty
final buffer, and `batchSize + 1` one-fact entries give one full-batch
flush followed by a single-row flush. -/
theorem factBatch_boundary_witness :
    (factEvents (runJson [("1.1.1.1", bigKmEntry batchSize)]).1 =
      [[("1.1.1.1", bigKmEntry batchSize)].flatMap
        fun p => factRowsOf p.1 p.2] ∧
     (runJson [("1.1.1.1", bigKmEntry batchSize)]).1.factBuf = []) ∧
    ((factEvents (runJson (List.replicate (batchSize + 1)
        ("1.1.1.1", oneInhEntry))).1).map List.length = [batchSize, 1] ∧
     (runJson (List.replicate (batchSize + 1)
        ("1.1.1.1", oneInhEntry))).1.factBuf = []) := by
  constructor
  · refine (factBatch_boundary [("1.1.1.1", bigKmEntry batchSize)] _ ?_).1 ?_
    · rw [runJson_bigKm "1.1.1.1" batchSize (le_refl batchSize)]
    · simp [factRowsOf_bigKm, List.length_replicate]
  · have hok : ∀ p ∈ List.replicate (batchSize + 1) ("1.1.1.1", oneInhEntry),
        ∃ t, processEntry p.1 p.2 = Except.ok t := by
      intro p hp
      rw [List.eq_of_mem_replicate hp]
      exact ⟨_, processEntry_oneInh "1.1.1.1"⟩
    refine (factBatch_boundary _ _ (runJson_snd_none _ hok)).2 ?_ ?_
    · intro p hp
      rw [List.eq_of_mem_replicate hp]
      exact Nat.le_refl 1
    · rw [length_flatMap_replicate]
      have hf1 : (factRowsOf ("1.1.1.1", oneInhEntry).1
          ("1.1.1.1", oneInhEntry).2).length = 1 := rfl
      rw [hf1, Nat.mul_one]

/-- Witness for C1 amended: a one-entry input with one synonym — the run
succeeds and every written row is accounted for. -/
theorem jsonPass_rows_belong_witness :
    ∃ per : List (EnzymeRow × List ProteinRow × List FactRow),
      List.Forall₂ (fun p t => processEntry p.1 p.2 = Except.ok t)
        [("1.1.1.1", [("synonyms", PyVal.list [PyVal.str "a"])])] per ∧
      enzymesWritten (runJson [("1.1.1.1",
        [("synonyms", PyVal.list [PyVal.str "a"])])]).1 =
        per.map (fun t => t.1) ∧
      proteinsWritten (runJson [("1.1.1.1",
        [("synonyms", PyVal.list [PyVal.str "a"])])]).1 =
        per.flatMap (fun t => t.2.1) ∧
      factsWritten (runJson [("1.1.1.1",
        [("synonyms", PyVal.list [PyVal.str "a"])])]).1 =
        per.flatMap (fun t => t.2.2) ∧
      (∀ r ∈ enzymesWritten (runJson [("1.1.1.1",
        [("synonyms", PyVal.list [PyVal.str "a"])])]).1,
        r.ec ∈ [("1.1.1.1",
          [("synonyms", PyVal.list [PyVal.str "a"])])].map Prod.fst) ∧
      (∀ r ∈ proteinsWritten (runJson [("1.1.1.1",
        [("synonyms", PyVal.list [PyVal.str "a"])])]).1,
        r.ec ∈ [("1.1.1.1",
          [("synonyms", PyVal.list [PyVal.str "a"])])].map Prod.fst) ∧
      (∀ r ∈ factsWritten (runJson [("1.1.1.1",
        [("synonyms", PyVal.list [PyVal.str "a"])])]).1,
        r.ec ∈ [("1.1.1.1",
          [("synonyms", PyVal.list [PyVal.str "a"])])].map Prod.fst) :=
  jsonPass_rows_belong [("1.1.1.1", [("synonyms", PyVal.list [PyVal.str "a"])])]
    (runJson [("1.1.1.1", [("synonyms", PyVal.list [PyVal.str "a"])])]).1 rfl

end BrendaIngest
